import Mathlib

/-
Verification of the logical-model layer of the `cubes` OLAP metadata
library (`src/cubes/model.py`).

The Python classes are shallowly embedded as Lean structures holding the
fields the verified claims depend on (auxiliary fields such as the `info`
dictionaries, physical mappings, joins or browser options carry no logic
and are omitted).  Python dictionaries (`OrderedDict`) become association
lists with insert-or-replace-in-place semantics; fallible code returns
`Except PyErr`; `None`-able strings become `Option String`, with Python
truthiness (`None` and `""` are falsy) made explicit.  Object identity,
where the source relies on it (the default `__hash__` of `Dimension` used
by `set` membership in `Model.add_cube`, and the `is` comparison in
`Dimension.validate`), is modelled by an `oid : Nat` tag on the objects
concerned.
-/

set_option autoImplicit false

namespace Cubes

/-- The exception classes of `cubes.errors` raised by `model.py`, plus the
built-in Python exceptions (`ValueError`, `KeyError`, `AttributeError`,
`NameError`) that the module can raise.  Messages are carried as plain
strings (quotation marks that the source interpolates around names are
elided). -/
inductive PyErr where
  | modelError (msg : String)
  | modelInconsistencyError (msg : String)
  | noSuchAttributeError (msg : String)
  | noSuchDimensionError (msg : String)
  | argumentError (msg : String)
  | valueError (msg : String)
  | keyError (msg : String)
  | attributeError (msg : String)
  | nameError (msg : String)
  deriving DecidableEq

instance {ε α : Type} [DecidableEq ε] [DecidableEq α] :
    DecidableEq (Except ε α) := fun a b =>
  match a, b with
  | .ok x, .ok y =>
    if h : x = y then .isTrue (by rw [h])
    else .isFalse (by intro hc; cases hc; exact h rfl)
  | .error x, .error y =>
    if h : x = y then .isTrue (by rw [h])
    else .isFalse (by intro hc; cases hc; exact h rfl)
  | .ok _, .error _ => .isFalse (by intro hc; cases hc)
  | .error _, .ok _ => .isFalse (by intro hc; cases hc)

/-- Python truthiness of an optional string: `None` and `""` are falsy. -/
def pyTruthyStr : Option String → Bool
  | none => false
  | some s => !(s == "")

/-- Lookup in an association list modelling a Python `dict` /
`OrderedDict` (`d.get(k)` / `d[k]`).  Keys are unique in every dictionary
the source builds, so first-match lookup coincides with dict lookup. -/
def odLookup {α : Type} (l : List (String × α)) (k : String) : Option α :=
  (l.find? (fun p => p.1 == k)).map (fun p => p.2)

/-- `OrderedDict` assignment `d[k] = v`: replaces the value in place when
the key is present (keeping its position), otherwise appends. -/
def odInsert {α : Type} (l : List (String × α)) (k : String) (v : α) :
    List (String × α) :=
  if l.any (fun p => p.1 == k) then
    l.map (fun p => if p.1 == k then (k, v) else p)
  else
    l ++ [(k, v)]

/-- Builds an `OrderedDict` from a list of key/value pairs (as in
`OrderedDict((m.name, m) for m in measures)`): later pairs with an
existing key replace the earlier value in place. -/
def odFromList {α : Type} (l : List (String × α)) : List (String × α) :=
  l.foldl (fun acc p => odInsert acc p.1 p.2) []

/-- The values view of an `OrderedDict` (`d.values()`). -/
def odValues {α : Type} (l : List (String × α)) : List α :=
  l.map (fun p => p.2)

/-- The keys view of an `OrderedDict` (`d.keys()`). -/
def odKeys {α : Type} (l : List (String × α)) : List String :=
  l.map (fun p => p.1)

/-- Index of the last occurrence of `t` in `l`, or `none`: Python
`str.rfind` restricted to a single-character needle (which is how
`split_aggregate_ref` uses it; Python returns `-1` for "absent", which we
render as `none`). -/
def rfindChar (l : List Char) (t : Char) : Option Nat :=
  match l with
  | [] => none
  | c :: cs =>
    match rfindChar cs t with
    | some i => some (i + 1)
    | none => if c = t then some 0 else none

/-- `aggregate_ref(measure, aggregate)`: joins the two names with an
underscore (`"%s_%s" % (measure, aggregate)`). -/
def aggregate_ref (measure : String) (aggregate : String) : String :=
  measure ++ "_" ++ aggregate

/-- The message of the `ArgumentError` raised by `split_aggregate_ref`
(source quotes around the names elided). -/
def invalidAggMsg (s : String) (meaning : String) : String :=
  "Invalid aggregate reference " ++ s ++ ". Did you mean " ++ meaning ++ "?"

/-- `split_aggregate_ref(measure)`: splits at the last underscore; raises
`ArgumentError` (reporting the likely intended name) when there is no
underscore (`r == -1`, suggested fix appends `_sum`) or the last
underscore is the final character (`r >= len - 1`, suggested fix appends
`sum`). -/
def split_aggregate_ref (measure : String) : Except PyErr (String × String) :=
  match rfindChar measure.data '_' with
  | none =>
    .error (.argumentError (invalidAggMsg measure (measure ++ "_sum")))
  | some r =>
    if r ≥ measure.data.length - 1 then
      .error (.argumentError (invalidAggMsg measure (measure ++ "sum")))
    else
      .ok (⟨measure.data.take r⟩, ⟨measure.data.drop (r + 1)⟩)

/-- The dimension data an `Attribute` reaches through its `dimension`
back-reference in `Attribute.ref` and `Dimension.validate`: the
name of the dimension, its `is_flat` / `has_details` properties (fixed once the
dimension is built — `Dimension` "is not meant to be mutable"), and the
`oid` identity tag standing for the Python object identity used by the
`attribute.dimension is not self` check. -/
structure DimSummary where
  oid : Nat
  name : String
  is_flat : Bool
  has_details : Bool
  deriving DecidableEq

/-- `Attribute` (class `Attribute(AttributeBase)`).  `label`/`description`
are the localizable fields; `dimension` is the back-reference set by the
owning dimension (`None` for unowned attributes). -/
structure Attribute where
  name : String
  label : Option String := none
  description : Option String := none
  dimension : Option DimSummary := none
  locales : List String := []
  deriving DecidableEq

/-- The reference string computed by `Attribute.ref` apart from the locale
suffix: dimension name alone for an attribute of a flat dimension without
details (when `simplify`), `dimension.attribute` otherwise, bare name when
there is no owning dimension. -/
def Attribute.refBase (a : Attribute) (simplify : Bool) : String :=
  match a.dimension with
  | some d =>
    if simplify && (d.is_flat && !d.has_details) then d.name
    else d.name ++ "." ++ a.name
  | none => a.name

/-- `Attribute.ref(simplify=True, locale=None)`.  A truthy `locale` must
be one of the locales of the attribute (else `ArgumentError`), and is appended
as `"." + locale`. -/
def Attribute.ref (a : Attribute) (simplify : Bool) (locale : Option String) :
    Except PyErr String :=
  match locale, pyTruthyStr locale with
  | some loc, true =>
    if a.locales.isEmpty then
      .error (.argumentError ("Attribute " ++ a.name ++ " is not loalizable (localization " ++ loc ++ " requested)"))
    else if !(a.locales.contains loc) then
      .error (.argumentError ("Attribute " ++ a.name ++ " has no localization " ++ loc))
    else
      .ok (a.refBase simplify ++ "." ++ loc)
  | _, _ => .ok (a.refBase simplify)

/-- `Level`: name, attribute list, and the key / label / order attribute
designations (always set by `Level.__init__`, hence `Option` only to
model hand-mutated states and the `if not level.key` validation check). -/
structure Level where
  name : String
  attributes : List Attribute
  key : Option Attribute := none
  label_attribute : Option Attribute := none
  order_attribute : Option Attribute := none
  label : Option String := none
  description : Option String := none
  deriving DecidableEq

/-- `Level.has_details`: true when the level has more than one
attribute. -/
def Level.has_details (l : Level) : Bool :=
  decide (l.attributes.length > 1)

/-- `Hierarchy`.  `levelNames` models `_level_refs` by the names of the
referenced levels (lazily resolved against the owning dimension); the
`dimension` back-reference is modelled by the name of the owning dimension. -/
structure Hierarchy where
  name : String
  levelNames : List String
  dimension : Option String := none
  label : Option String := none
  description : Option String := none
  deriving DecidableEq

/-- `Dimension`.  `levels` is the values view of the `_levels`
`OrderedDict` (keyed by level name, hence unique names in constructor-built
dimensions); `hierarchies` is the `name -> Hierarchy` dict;
`flat_hierarchy` is the `_flat_hierarchy` cache (set to `None` by the
constructor); `oid` models object identity. -/
structure Dimension where
  oid : Nat := 0
  name : String
  levels : List Level
  hierarchies : List (String × Hierarchy) := []
  default_hierarchy_name : Option String := none
  flat_hierarchy : Option Hierarchy := none
  label : Option String := none
  description : Option String := none
  deriving DecidableEq

/-- `Dimension.is_flat`: exactly one level. -/
def Dimension.is_flat (d : Dimension) : Bool :=
  decide (d.levels.length = 1)

/-- `Dimension.has_details`: some level has more than one attribute. -/
def Dimension.has_details (d : Dimension) : Bool :=
  d.levels.any Level.has_details

/-- The `DimSummary` a dimension presents through back-references. -/
def Dimension.summary (d : Dimension) : DimSummary :=
  { oid := d.oid, name := d.name, is_flat := d.is_flat,
    has_details := d.has_details }

/-- Evaluating the truthiness of a `Hierarchy` object (`if not hierarchy:`
calls `Hierarchy.__len__`, which lazily resolves `_level_refs` via
`_set_levels`): an empty level list raises `ModelInconsistencyError`, an
unresolvable level name raises `KeyError` (from `Dimension.level`), and
otherwise the length is >= 1, so the object is truthy and is returned. -/
def hierLenCheck (d : Dimension) (h : Hierarchy) : Except PyErr Hierarchy :=
  if h.levelNames.isEmpty then
    .error (.modelInconsistencyError ("Hierarchy level list should not be empty (in " ++ h.name ++ ")"))
  else
    match h.levelNames.find? (fun n => !(d.levels.any (fun l => l.name == n))) with
    | some n => .error (.keyError ("No level " ++ n ++ " in dimension " ++ d.name))
    | none => .ok h

/-- The name `Dimension._default_hierarchy` looks up:
`default_hierarchy_name` when truthy, else `"default"`. -/
def Dimension.defaultLookupName (d : Dimension) : String :=
  if pyTruthyStr d.default_hierarchy_name then
    d.default_hierarchy_name.getD "default"
  else "default"

/-- `Dimension._default_hierarchy`.  Looks up `defaultLookupName` in the
hierarchy dict.  On a miss: a sole hierarchy is returned; with no
hierarchies and exactly one level the source executes
`Hierarchy(name=level.name, dimension=self, levels=[levels[0]])`, where
`level` and `levels` are unbound local names, so Python raises `NameError`
before anything is cached (the `_flat_hierarchy` cache therefore can never
be populated by this code; a pre-populated cache would be returned after
its truthiness check); the remaining cases raise `ModelError`. -/
def Dimension.defaultHierarchy (d : Dimension) : Except PyErr Hierarchy :=
  match odLookup d.hierarchies d.defaultLookupName with
  | some h => hierLenCheck d h
  | none =>
    match d.hierarchies with
    | [(_, h)] => .ok h
    | [] =>
      if d.levels.length = 1 then
        match d.flat_hierarchy with
        | none => .error (.nameError "global name level is not defined")
        | some fh => hierLenCheck d fh
      else if d.levels.length > 1 then
        .error (.modelError ("There are no hierarchies in dimenson " ++ d.name ++ " and there are more than one level"))
      else
        .error (.modelError ("There are no hierarchies in dimenson " ++ d.name ++ " and there are no levels to make hierarchy from"))
    | _ :: _ :: _ =>
      .error (.modelError ("No default hierarchy specified in dimension " ++ d.name ++ " and there is more than one hierarchy defined"))

/-- The argument of `Dimension.hierarchy`: a name or a `Hierarchy`
object. -/
inductive HierArg where
  | str (s : String)
  | hier (h : Hierarchy)
  deriving DecidableEq

/-- `Dimension.hierarchy(obj=None)`: `None` resolves the default
hierarchy; a string is looked up (`ModelError` when absent); a `Hierarchy`
object is returned as-is. -/
def Dimension.hierarchy (d : Dimension) (obj : Option HierArg) :
    Except PyErr Hierarchy :=
  match obj with
  | none => d.defaultHierarchy
  | some (.str s) =>
    match odLookup d.hierarchies s with
    | none => .error (.modelError ("No hierarchy " ++ s ++ " in dimension " ++ d.name))
    | some h => .ok h
  | some (.hier h) => .ok h

/-- The message of the duplicate-attribute `error` diagnostic of
`Dimension.validate` (source quotes elided): it names the attribute, the
dimension, the level where the duplicate appeared and the level of the
first occurrence. -/
def dupAttrMsg (aname dname lname first : String) : String :=
  "Duplicate attribute " ++ aname ++ " in dimension " ++ dname ++
    " level " ++ lname ++ " (also defined in level " ++ first ++ ")"

/-- One iteration of the attribute loop of `Dimension.validate`: the
running state is the `attributes` set of seen references together with the
`first_occurence` map from reference to level name.  A reference already
seen yields the duplicate `error` (looking up the first occurrence);
otherwise the reference is recorded.  The `isinstance(attribute,
Attribute)` check cannot fire in the typed embedding; the
`attribute.dimension is not self` identity check is modelled by the `oid`
tags. -/
def vAttrStep (d : Dimension) (lname : String)
    (st : List String × List (String × String)) (a : Attribute) :
    List (String × String) × (List String × List (String × String)) :=
  let r := a.refBase true
  let dup : List (String × String) × (List String × List (String × String)) :=
    if r ∈ st.1 then
      ([("error", dupAttrMsg a.name d.name lname ((odLookup st.2 r).getD ""))], st)
    else
      ([], (r :: st.1, odInsert st.2 r lname))
  let dimErr : List (String × String) :=
    if (match a.dimension with
        | some s => decide (s.oid ≠ d.oid)
        | none => true) then
      [("error", "Dimension of attribute " ++ a.name ++
          " does not match with owning dimension " ++ d.name)]
    else []
  (dup.1 ++ dimErr, dup.2)

/-- The attribute loop of `Dimension.validate` over the attributes of one
level, threading the seen/first-occurrence state and collecting
diagnostics in order. -/
def vAttrs (d : Dimension) (lname : String) :
    List Attribute → List String × List (String × String) →
    List (String × String) × (List String × List (String × String))
  | [], st => ([], st)
  | a :: rest, st =>
    let step := vAttrStep d lname st a
    let tail := vAttrs d lname rest step.2
    (step.1 ++ tail.1, tail.2)

/-- One iteration of the level loop of `Dimension.validate`: an
attribute-less level reports an `error` and is skipped (`continue`); an
unset key reports a `default` diagnostic; a key not among the own attributes of
the level reports an `error`; then the attribute loop runs. -/
def vLevelStep (d : Dimension) (st : List String × List (String × String))
    (l : Level) :
    List (String × String) × (List String × List (String × String)) :=
  if l.attributes.isEmpty then
    ([("error", "Level " ++ l.name ++ " in dimension " ++ d.name ++
        " has no attributes")], st)
  else
    let keyDefault : List (String × String) :=
      if l.key.isNone then
        [("default", "Level " ++ l.name ++ " in dimension " ++ d.name ++
            " has no key attribute specified, first attribute will be used: " ++
            ((l.attributes.head?.map Attribute.name).getD ""))]
      else []
    let keyErr : List (String × String) :=
      match l.key with
      | some k =>
        if !(l.attributes.isEmpty) &&
            !(l.attributes.any (fun a => a.name == k.name)) then
          [("error", "Key " ++ k.name ++ " in level " ++ l.name ++
              " in dimension " ++ d.name ++ " is not in levels attribute list")]
        else []
      | none => []
    let inner := vAttrs d l.name l.attributes st
    (keyDefault ++ keyErr ++ inner.1, inner.2)

/-- The level loop of `Dimension.validate` over the `_levels` values,
threading the seen/first-occurrence state. -/
def vLevels (d : Dimension) :
    List Level → List String × List (String × String) →
    List (String × String)
  | [], _ => []
  | l :: rest, st =>
    let step := vLevelStep d st l
    step.1 ++ vLevels d rest step.2

/-- The hierarchy-presence diagnostics of `Dimension.validate` (the
`if not self.hierarchies: ... else: ...` block). -/
def validateHierPart (d : Dimension) : List (String × String) :=
  if d.hierarchies.isEmpty then
    if d.is_flat then
      [("default", "No hierarchies in dimension " ++ d.name ++
          ", flat level " ++ ((d.levels.head?.map Level.name).getD "") ++
          " will be used")]
    else if d.levels.length > 1 then
      [("error", "No hierarchies in dimension " ++ d.name ++
          ", more than one levels exist (" ++ toString d.levels.length ++ ")")]
    else [("error", "No hierarchies in dimension " ++ d.name)]
  else
    if !(pyTruthyStr d.default_hierarchy_name) then
      if d.hierarchies.length > 1 &&
          (odLookup d.hierarchies "default").isNone then
        [("error", "No defaut hierarchy specified, there is more than one hierarchy in dimension " ++ d.name)]
      else []
    else []

/-- The default-hierarchy-name check of `Dimension.validate`
(`if self.default_hierarchy_name and not self.hierarchies.get(...)`):
it can raise, because `not` on a found `Hierarchy` evaluates its
truthiness (see `hierLenCheck`). -/
def validateDefaultNamePart (d : Dimension) :
    Except PyErr (List (String × String)) :=
  if pyTruthyStr d.default_hierarchy_name then
    match odLookup d.hierarchies (d.default_hierarchy_name.getD "") with
    | none =>
      .ok [("error", "Default hierarchy " ++
          d.default_hierarchy_name.getD "" ++
          " does not exist in dimension " ++ d.name)]
    | some h => (hierLenCheck d h).map (fun _ => [])
  else .ok []

/-- `Dimension.validate()`: list of `(severity, message)` diagnostics.
The result is `Except` because the default-hierarchy-name check can raise
(see `validateDefaultNamePart`). -/
def Dimension.validate (d : Dimension) :
    Except PyErr (List (String × String)) :=
  if d.levels.isEmpty then
    .ok [("error", "No levels in dimension " ++ d.name)]
  else
    match validateDefaultNamePart d with
    | .error e => .error e
    | .ok p2 => .ok (validateHierPart d ++ p2 ++ vLevels d d.levels ([], []))

/-- The well-formedness of the hierarchy mapping of a dimension that
constructor-built dimensions enjoy: every hierarchy has a non-empty level
list whose names all resolve in the dimension (so evaluating the truthiness of a
hierarchy never raises). -/
def Dimension.WFHierarchies (d : Dimension) : Prop :=
  ∀ p ∈ d.hierarchies, p.2.levelNames ≠ [] ∧
    ∀ n ∈ p.2.levelNames, d.levels.any (fun l => l.name == n) = true

instance (d : Dimension) : Decidable d.WFHierarchies := by
  unfold Dimension.WFHierarchies; infer_instance

/-- `Measure(AttributeBase)`: a fact measure with its optional list of
aggregate-function names. -/
structure Measure where
  name : String
  label : Option String := none
  description : Option String := none
  order : Option String := none
  format : Option String := none
  aggregates : Option (List String) := none
  formula : Option String := none
  expression : Option String := none
  deriving DecidableEq

/-- `MeasureAggregate(AttributeBase)`: an aggregate with its function and
optional source measure name. -/
structure MeasureAggregate where
  name : String
  label : Option String := none
  description : Option String := none
  order : Option String := none
  format : Option String := none
  measure : Option String := none
  function : Option String := none
  formula : Option String := none
  expression : Option String := none
  deriving DecidableEq

/-- `self.aggregates or ["sum"]` in `Measure.default_aggregates`: a falsy
(missing or empty) function list defaults to the sole function `sum`. -/
def Measure.aggListOrSum (m : Measure) : List String :=
  match m.aggregates with
  | some l => if l.isEmpty then ["sum"] else l
  | none => ["sum"]

/-- `Measure.default_aggregates()`: one `MeasureAggregate` per aggregate
function, named `<measure>_<function>`, labelled `<label> – <function>`
when the measure label is truthy, carrying the measure description,
order and format, and referencing the measure by name. -/
def Measure.default_aggregates (m : Measure) : List MeasureAggregate :=
  m.aggListOrSum.map (fun agg =>
    { name := m.name ++ "_" ++ agg
      label :=
        match m.label with
        | some lb => if lb == "" then none else some (lb ++ " – " ++ agg)
        | none => none
      description := m.description
      order := m.order
      format := m.format
      measure := some m.name
      function := some agg })

/-- `Cube`.  `measures` and `aggregates` are the `_measures` /
`_aggregates` `OrderedDict`s (keyed by name); `dimensions` is the values
view of the cube `_dimensions` dict (unique names, enforced by
`Cube.add_dimension`). -/
structure Cube where
  name : String
  dimensions : List Dimension := []
  measures : List (String × Measure) := []
  aggregates : List (String × MeasureAggregate) := []
  details : List Attribute := []
  label : Option String := none
  description : Option String := none
  deriving DecidableEq

/-- The truthiness test `aggregate.measure and aggregate.measure not in
self._measures` guarding the `NoSuchAttributeError` in `Cube.__init__`. -/
def aggMeasureMissing (ms : List (String × Measure)) (a : MeasureAggregate) :
    Bool :=
  match a.measure with
  | some s => !(s == "") && !(ms.any (fun p => p.1 == s))
  | none => false

/-- The dimension loop of `Cube.__init__` (each `Cube.add_dimension`
call): a dimension whose name is already present raises `ModelError`,
otherwise it is appended. -/
def cubeAddDims (acc : List Dimension) :
    List Dimension → Except PyErr (List Dimension)
  | [] => .ok acc
  | dim :: rest =>
    if acc.any (fun d => d.name == dim.name) then
      .error (.modelError ("Dimension with name " ++ dim.name ++
        " already exits in cube"))
    else cubeAddDims (acc ++ [dim]) rest

/-- The `_measures` `OrderedDict` built by the `measures` setter of
`Cube`. -/
def cubeMeasuresOd (measures : List Measure) : List (String × Measure) :=
  odFromList (measures.map (fun m => (m.name, m)))

/-- The measure/aggregate wiring of `Cube.__init__` after the dimensions
have been added: an explicit aggregate list is checked — the first
aggregate naming a measure absent from `_measures` raises
`NoSuchAttributeError` — while an omitted (`None`) list is replaced by the
default aggregates of the measures; either list then populates the
`_aggregates` `OrderedDict`. -/
def cubeInitAggs (name : String) (dims : List Dimension)
    (measures : List Measure) :
    Option (List MeasureAggregate) → List Attribute → Except PyErr Cube
  | some l, details =>
    match l.find? (fun a => aggMeasureMissing (cubeMeasuresOd measures) a) with
    | some a =>
      .error (.noSuchAttributeError ("No measure " ++ a.measure.getD "" ++
        " for aggregate" ++ a.name))
    | none =>
      .ok { name := name, dimensions := dims,
            measures := cubeMeasuresOd measures,
            aggregates := odFromList (l.map (fun a => (a.name, a))),
            details := details }
  | none, details =>
    .ok { name := name, dimensions := dims,
          measures := cubeMeasuresOd measures,
          aggregates := odFromList
            (((odValues (cubeMeasuresOd measures)).flatMap
              Measure.default_aggregates).map (fun a => (a.name, a))),
          details := details }

/-- `Cube.__init__` restricted to the arguments the claims exercise
(`name`, `dimensions`, `measures`, `aggregates`, `details`; the inputs are
already model objects, for which `attribute_list` is the identity).
Dimensions are added one by one, then measures and aggregates are wired
(see `cubeInitAggs`). -/
def cubeInit (name : String) (dimensions : List Dimension)
    (measures : List Measure) (aggregates : Option (List MeasureAggregate))
    (details : List Attribute) : Except PyErr Cube :=
  match cubeAddDims [] dimensions with
  | .error e => .error e
  | .ok dims => cubeInitAggs name dims measures aggregates details

/-- A value of a translation dictionary for one attribute-like entity, as
consumed by `localize_common`: either a bare string (astring label) or a
dictionary with optional `label` / `description` keys. -/
inductive LocValue where
  | str (s : String)
  | dict (label : Option String) (description : Option String)
  deriving DecidableEq

/-- A translation for one level: a bare string, or a dictionary with the
common keys plus the deprecated nested `attributes` dictionary. -/
inductive LevelTrans where
  | str (s : String)
  | dict (label : Option String) (description : Option String)
      (attributes : Option (List (String × LocValue)))
  deriving DecidableEq

/-- A translation dictionary for one dimension.  `hierarcies` (sic) is the
misspelled key the source actually reads; `hierarchies` is the key the
documentation promises, which the code never consults.  `template` is read
into a local but dead (`if False and template_name`). -/
structure DimTrans where
  label : Option String := none
  description : Option String := none
  attributes : Option (List (String × LocValue)) := none
  levels : Option (List (String × LevelTrans)) := none
  hierarcies : Option (List (String × LocValue)) := none
  hierarchies : Option (List (String × LocValue)) := none
  template : Option String := none
  deriving DecidableEq

/-- A translation dictionary for one cube. -/
structure CubeTrans where
  label : Option String := none
  description : Option String := none
  measures : Option (List (String × LocValue)) := none
  aggregates : Option (List (String × LocValue)) := none
  details : Option (List (String × LocValue)) := none
  deriving DecidableEq

/-- A full model translation dictionary (`locale` is mandatory at use
time). -/
structure ModelTrans where
  locale : Option String := none
  label : Option String := none
  description : Option String := none
  cubes : Option (List (String × CubeTrans)) := none
  dimensions : Option (List (String × DimTrans)) := none
  deriving DecidableEq

/-- The argument of `Model.localize`: a locale name (resolved against the
`translations` of the model) or a literal translation structure. -/
inductive ModelTransArg where
  | locale (s : String)
  | trans (t : ModelTrans)
  deriving DecidableEq

/-- `Model`.  `dimensions` is the values view of the `_dimensions`
`OrderedDict` (which is keyed by the own name of each dimension), `cubes` the
`name -> Cube` dict. -/
structure Model where
  name : Option String := none
  label : Option String := none
  description : Option String := none
  locale : Option String := none
  dimensions : List Dimension := []
  cubes : List (String × Cube) := []
  translations : List (String × ModelTrans) := []
  deriving DecidableEq

/-- `Model.add_dimension`: raises `ModelInconsistencyError` whenever any
dimension with the same name is already registered (even the same
object); otherwise registers the dimension. -/
def Model.add_dimension (m : Model) (d : Dimension) : Except PyErr Model :=
  if m.dimensions.any (fun d0 => d0.name == d.name) then
    .error (.modelInconsistencyError ("Dimension " ++ d.name ++
      " already exists in model"))
  else .ok { m with dimensions := m.dimensions ++ [d] }

/-- Membership of a dimension in `set(self.dimensions)` in
`Model.add_cube`.  `Dimension` defines `__eq__` but not `__hash__`, so the
set hashes by the default identity hash: membership holds for the object
already in the set, which the `oid` identity tags model. -/
def memIdentity (d : Dimension) (l : List Dimension) : Bool :=
  l.any (fun d0 => d0.oid == d.oid)

/-- The dimension loop of `Model.add_cube`: `snapDims`/`snapNames` are the
`my_dimensions` / `my_dimension_names` snapshots taken before the loop
(they are not updated as dimensions are added), while `add_dimension`
checks the live `_dimensions` dict of `m`. -/
def addCubeDims (snapDims : List Dimension) (snapNames : List String)
    (cname : String) (m : Model) : List Dimension → Except PyErr Model
  | [] => .ok m
  | dim :: rest =>
    if memIdentity dim snapDims then
      addCubeDims snapDims snapNames cname m rest
    else if !(snapNames.contains dim.name) then
      match m.add_dimension dim with
      | .ok m1 => addCubeDims snapDims snapNames cname m1 rest
      | .error e => .error e
    else
      .error (.modelError ("Dimension " ++ dim.name ++ " of cube " ++
        cname ++ " has different specification as models dimension"))

/-- `Model.add_cube`: folds the dimensions of the cube into the model (skipping
dimensions identical to registered ones, registering fresh names, and
failing on a same-named different object), then stores the cube under its
name. -/
def Model.add_cube (m : Model) (c : Cube) : Except PyErr Model :=
  match addCubeDims m.dimensions (m.dimensions.map Dimension.name) c.name m
      c.dimensions with
  | .error e => .error e
  | .ok m1 => .ok { m1 with cubes := odInsert m1.cubes c.name c }

/-- Applies `f` to the attributes of one level that are "representatives",
processing from the right: `seen` holds the names already encountered
further right.  The `_attributes` dict of a dimension maps each attribute name
to the *last* object of that name in the concatenation of the per-level
attribute lists (dict `update` is last-wins), and operations performed
through `_attributes` (the back-reference assignment in `_set_levels`, the
attribute localization in `Dimension.localize`) mutate only those
representative objects. -/
def updAttrsInLevel (f : Attribute → Attribute) (seen : List String) :
    List Attribute → List Attribute × List String
  | [] => ([], seen)
  | a :: rest =>
    let tail := updAttrsInLevel f seen rest
    if a.name ∈ tail.2 then (a :: tail.1, tail.2)
    else (f a :: tail.1, a.name :: tail.2)

/-- Applies `f` to the representative attributes of every level (see
`updAttrsInLevel`), processing levels from the right. -/
def updReprLevels (f : Attribute → Attribute) :
    List Level → List Level × List String
  | [] => ([], [])
  | l :: rest =>
    let tail := updReprLevels f rest
    let here := updAttrsInLevel f tail.2 l.attributes
    ({ l with attributes := here.1 } :: tail.1, here.2)

/-- Mutation of every representative attribute of a level list. -/
def updateReprAttrs (lvls : List Level) (f : Attribute → Attribute) :
    List Level :=
  (updReprLevels f lvls).1

/-- `Dimension.__init__` restricted to the arguments the claims exercise
(the `info`/`key_field` bookkeeping carries no logic).  An empty level
list raises `ModelError`; `_set_levels` builds the `_levels` dict and
points the `dimension` back-references of the representative attributes at the
new dimension; a falsy `hierarchies` argument (absent or empty) synthesizes
the hierarchy `Hierarchy("default", self.levels)`, else the given
hierarchies are keyed by name; the `dimension`
back-reference of every hierarchy is then set to the new dimension; `_flat_hierarchy` starts
as `None`. -/
def dimInit (oid : Nat) (name : String) (levels : List Level)
    (hierarchies : Option (List Hierarchy))
    (default_hierarchy_name : Option String) (label : Option String)
    (description : Option String) : Except PyErr Dimension :=
  if levels.isEmpty then
    .error (.modelError ("No levels specified for dimension " ++ name))
  else
    let lvls := odValues (odFromList (levels.map (fun l => (l.name, l))))
    let summary : DimSummary :=
      { oid := oid, name := name,
        is_flat := decide (lvls.length = 1),
        has_details := lvls.any Level.has_details }
    let lvls1 := updateReprAttrs lvls (fun a => { a with dimension := some summary })
    let hiers : List (String × Hierarchy) :=
      match hierarchies with
      | some hs =>
        if hs.isEmpty then
          [("default", { name := "default", levelNames := lvls1.map Level.name })]
        else odFromList (hs.map (fun h => (h.name, h)))
      | none =>
        [("default", { name := "default", levelNames := lvls1.map Level.name })]
    .ok { oid := oid, name := name, levels := lvls1,
          hierarchies := hiers.map (fun p => (p.1, { p.2 with dimension := some name })),
          default_hierarchy_name := default_hierarchy_name,
          flat_hierarchy := none, label := label, description := description }

/-- One field update of `localize_common`: a key present in the
translation dictionary overwrites the field, otherwise the field is
kept. -/
def lcField (cur new : Option String) : Option String :=
  match new with
  | some v => some v
  | none => cur

/-- `localize_common` applied to an `Attribute`: a bare string sets the
label; a dictionary overwrites `label` / `description` where present. -/
def Attribute.applyLoc (a : Attribute) : LocValue → Attribute
  | .str s => { a with label := some s }
  | .dict lb ds =>
    { a with label := lcField a.label lb,
             description := lcField a.description ds }

/-- `localize_common` applied to a `Measure`. -/
def Measure.applyLoc (m : Measure) : LocValue → Measure
  | .str s => { m with label := some s }
  | .dict lb ds =>
    { m with label := lcField m.label lb,
             description := lcField m.description ds }

/-- `localize_common` applied to a `MeasureAggregate`. -/
def MeasureAggregate.applyLoc (m : MeasureAggregate) : LocValue →
    MeasureAggregate
  | .str s => { m with label := some s }
  | .dict lb ds =>
    { m with label := lcField m.label lb,
             description := lcField m.description ds }

/-- `Level.localize`: `localize_common`, then — dictionaries only — the
deprecated nested `attributes` dictionary localizes every attribute of the
level whose name it mentions (an empty dictionary is falsy and skipped). -/
def Level.localize (l : Level) : LevelTrans → Level
  | .str s => { l with label := some s }
  | .dict lb ds attrsT =>
    let l1 := { l with label := lcField l.label lb,
                       description := lcField l.description ds }
    match attrsT with
    | some al =>
      if al.isEmpty then l1
      else
        { l1 with attributes := l1.attributes.map (fun a =>
            match odLookup al a.name with
            | some lv => a.applyLoc lv
            | none => a) }
    | none => l1

/-- `Dimension.localize`: `localize_common`; then the `attributes`
dictionary applied through `all_attributes()` (i.e. to the representative
attribute objects of the `_attributes` dict, see `updateReprAttrs`); then
the per-level translations (`locale.get("levels") or {}`; a falsy
per-level value — e.g. the empty string — is skipped); finally the
hierarchy branch: it reads the misspelled key `"hierarcies"`, and when
that is present and non-empty it iterates `self.hierarchies` — a dict,
yielding *keys*, i.e. strings — and accesses `.name` on them, raising
`AttributeError`.  The documented key `"hierarchies"` is never read. -/
def Dimension.localize (d : Dimension) (t : DimTrans) :
    Except PyErr Dimension :=
  let d1 := { d with label := lcField d.label t.label,
                     description := lcField d.description t.description }
  let al := t.attributes.getD []
  let lv1 := updateReprAttrs d1.levels (fun a =>
    match odLookup al a.name with
    | some lv => a.applyLoc lv
    | none => a)
  let lv2 := lv1.map (fun l =>
    match odLookup (t.levels.getD []) l.name with
    | some (.str s) => if s == "" then l else l.localize (.str s)
    | some tr => l.localize tr
    | none => l)
  match t.hierarcies with
  | some hl =>
    if hl.isEmpty then .ok { d1 with levels := lv2 }
    else if d1.hierarchies.isEmpty then .ok { d1 with levels := lv2 }
    else .error (.attributeError "str object has no attribute name")
  | none => .ok { d1 with levels := lv2 }

/-- `Cube.localize`: `localize_common`, then the `measures`, `aggregates`
and `details` dictionaries localize the matching objects (a falsy —
absent or empty — dictionary is skipped). -/
def Cube.localize (c : Cube) (t : CubeTrans) : Cube :=
  let c1 := { c with label := lcField c.label t.label,
                     description := lcField c.description t.description }
  let c2 :=
    match t.measures with
    | some al =>
      if al.isEmpty then c1
      else { c1 with measures := c1.measures.map (fun p =>
          (p.1, match odLookup al p.2.name with
                | some lv => p.2.applyLoc lv
                | none => p.2)) }
    | none => c1
  let c3 :=
    match t.aggregates with
    | some al =>
      if al.isEmpty then c2
      else { c2 with aggregates := c2.aggregates.map (fun p =>
          (p.1, match odLookup al p.2.name with
                | some lv => p.2.applyLoc lv
                | none => p.2)) }
    | none => c2
  match t.details with
  | some al =>
    if al.isEmpty then c3
    else { c3 with details := c3.details.map (fun a =>
        match odLookup al a.name with
        | some lv => a.applyLoc lv
        | none => a) }
  | none => c3

/-- `Level.attribute(name)` as used by `Level.__init__`: first attribute
of that name, else `NoSuchAttributeError`. -/
def findAttr (attrs : List Attribute) (nm : String) :
    Except PyErr Attribute :=
  match attrs.find? (fun a => a.name == nm) with
  | some a => .ok a
  | none => .error (.noSuchAttributeError nm)

/-- `copy.deepcopy` of a `Level` (`Level.__deepcopy__` followed by
`Level.__init__`): accessing `self.key.name` / `self.label_attribute.name`
raises `AttributeError` when unset; the deep-copied attributes keep their
fields (`Attribute.__deepcopy__`) but `Level.__init__` then resets the
`dimension` back-reference of every attribute to the `dimension` parameter, which
is `None` here; the key / label / order attributes are re-resolved by name
against the copied attribute list (falling back to the first — or for the
label the second — attribute when the name is falsy). -/
def deepcopyLevel (l : Level) : Except PyErr Level := do
  let kname ← match l.key with
    | some k => pure k.name
    | none => .error (.attributeError "NoneType object has no attribute name")
  let laname ← match l.label_attribute with
    | some la => pure la.name
    | none => .error (.attributeError "NoneType object has no attribute name")
  let oaname := l.order_attribute.map Attribute.name
  let attrs := l.attributes.map (fun a => { a with dimension := none })
  match attrs with
  | [] => .error (.modelError "Attribute list should not be empty")
  | a0 :: rest => do
    let key ← if kname == "" then pure a0 else findAttr attrs kname
    let lab ←
      if laname == "" then
        pure (match rest with | a1 :: _ => a1 | [] => key)
      else findAttr attrs laname
    let ord ← match oaname with
      | some s =>
        if s == "" then pure a0
        else
          match attrs.find? (fun a => a.name == s) with
          | some a => pure a
          | none =>
            .error (.noSuchAttributeError ("Unknown order attribute " ++ s ++
              " in level " ++ l.name))
      | none => pure a0
    .ok { name := l.name, attributes := attrs, key := some key,
          label_attribute := some lab, order_attribute := some ord,
          label := l.label, description := none }

/-- `copy.deepcopy` of a `Dimension` (the generic protocol: every field is
copied recursively, levels through `Level.__deepcopy__`).  The hierarchy
and string fields copy to equal values in this embedding; the `oid` tag is
retained (nothing after a `deepcopy` relies on object identity). -/
def deepcopyDimension (d : Dimension) : Except PyErr Dimension := do
  let lvls ← d.levels.mapM deepcopyLevel
  .ok { d with levels := lvls }

/-- `copy.deepcopy` of a `Cube`: measures, aggregates and details copy
field-by-field to equal values (`__deepcopy__` of each class), dimensions
recursively. -/
def deepcopyCube (c : Cube) : Except PyErr Cube := do
  let dims ← c.dimensions.mapM deepcopyDimension
  .ok { c with dimensions := dims }

/-- `copy.deepcopy` of a `Model`. -/
def deepcopyModel (m : Model) : Except PyErr Model := do
  let dims ← m.dimensions.mapM deepcopyDimension
  let cbs ← m.cubes.mapM (fun p => do
    let c ← deepcopyCube p.2
    pure (p.1, c))
  .ok { m with dimensions := dims, cubes := cbs }

/-- The cube loop of `Model.localize`: each named cube is looked up
(`Model.cube`, raising `ModelError` when absent) and localized in
place. -/
def localizeCubes (model : Model) :
    List (String × CubeTrans) → Except PyErr Model
  | [] => .ok model
  | (nm, ct) :: rest =>
    match odLookup model.cubes nm with
    | none => .error (.modelError ("No such cube " ++ nm))
    | some cube =>
      localizeCubes
        { model with cubes := odInsert model.cubes nm (cube.localize ct) }
        rest

/-- The dimension loop of `Model.localize`: each named dimension is looked
up (`Model.dimension`, raising `NoSuchDimensionError` when absent) and
localized in place (the translation-template lookup in the source is dead
code behind `if False`). -/
def localizeDims (model : Model) :
    List (String × DimTrans) → Except PyErr Model
  | [] => .ok model
  | (nm, dt) :: rest =>
    match model.dimensions.find? (fun d => d.name == nm) with
    | none =>
      .error (.noSuchDimensionError ("Unknown dimension with name " ++ nm ++
        " in model"))
    | some dim =>
      match dim.localize dt with
      | .error e => .error e
      | .ok dim1 =>
        localizeDims
          { model with dimensions := model.dimensions.map (fun d =>
              if d.name == nm then dim1 else d) }
          rest

/-- `Model.localize(translation)`: deep-copies the receiver, resolves a
string argument against the `translations` of the receiver (raising
`ModelError` when absent), requires a `locale` key (`ValueError`
otherwise), sets the locale of the copy, applies `localize_common` to the copy,
then localizes the named cubes and dimensions of the copy, and returns
the copy.  (All mutations are performed on the fresh copy.) -/
def Model.localize (m : Model) (translation : ModelTransArg) :
    Except PyErr Model := do
  let model ← deepcopyModel m
  let t ← match translation with
    | .locale s =>
      match odLookup m.translations s with
      | some t => pure t
      | none => .error (.modelError ("Model has no translation for " ++ s))
    | .trans t => pure t
  let loc ← match t.locale with
    | some l => pure l
    | none => .error (.valueError "No locale specified in model translation")
  let model := { model with
                 locale := some loc
                 label := lcField model.label t.label
                 description := lcField model.description t.description }
  let model ← match t.cubes with
    | some cl => localizeCubes model cl
    | none => pure model
  match t.dimensions with
  | some dl => localizeDims model dl
  | none => pure model

/-! ### Lemmas about `rfindChar` (Python `str.rfind`) -/

theorem rfindChar_eq_none {l : List Char} {t : Char} :
    rfindChar l t = none ↔ t ∉ l := by
  induction l with
  | nil => simp [rfindChar]
  | cons c cs ih =>
    simp only [rfindChar]
    cases h : rfindChar cs t with
    | some i =>
      have hmem : t ∈ cs := by
        by_contra hmem
        rw [← ih] at hmem
        rw [hmem] at h
        cases h
      simp [List.mem_cons, hmem]
    | none =>
      have hnot : t ∉ cs := ih.mp h
      by_cases hc : c = t
      · simp [hc]
      · simp [hc, List.mem_cons, hnot]
        exact fun he => hc he.symm

theorem rfindChar_eq_some {l : List Char} {t : Char} {i : Nat}
    (h : rfindChar l t = some i) :
    ∃ a b : List Char, l = a ++ t :: b ∧ a.length = i ∧ t ∉ b := by
  induction l generalizing i with
  | nil => cases h
  | cons c cs ih =>
    simp only [rfindChar] at h
    cases h0 : rfindChar cs t with
    | some j =>
      rw [h0] at h
      have hij : j + 1 = i := by cases h; rfl
      obtain ⟨a, b, hl, hlen, hb⟩ := ih h0
      exact ⟨c :: a, b, by rw [hl]; rfl, by simp [hlen, hij], hb⟩
    | none =>
      rw [h0] at h
      by_cases hc : c = t
      · rw [if_pos hc] at h
        have hi : i = 0 := by cases h; rfl
        exact ⟨[], cs, by rw [hc]; rfl, by simp [hi], rfindChar_eq_none.mp h0⟩
      · rw [if_neg hc] at h
        cases h

theorem rfindChar_append {a b : List Char} {t : Char} (hb : t ∉ b) :
    rfindChar (a ++ t :: b) t = some a.length := by
  induction a with
  | nil =>
    simp [rfindChar, rfindChar_eq_none.mpr hb]
  | cons c a' ih =>
    show (match rfindChar (a' ++ t :: b) t with
          | some i => some (i + 1)
          | none => if c = t then some 0 else none) = some (a'.length + 1)
    rw [ih]

/-- Helper: on a string decomposed around its last underscore with a
non-empty tail, `split_aggregate_ref` splits exactly there. -/
theorem split_aggregate_ref_ok (s : String) (a b : List Char)
    (hs : s.data = a ++ '_' :: b) (hb : '_' ∉ b) (hbne : b ≠ []) :
    split_aggregate_ref s = .ok (⟨a⟩, ⟨b⟩) := by
  have h1 : rfindChar s.data '_' = some a.length := by
    rw [hs]; exact rfindChar_append hb
  have hlen : s.data.length = a.length + b.length + 1 := by
    rw [hs]; simp [List.length_append]; omega
  have hpos : 0 < b.length := List.length_pos.mpr hbne
  have htake : s.data.take a.length = a := by
    rw [hs]; exact List.take_left a ('_' :: b)
  have hdrop : s.data.drop (a.length + 1) = b := by
    rw [hs, show a ++ '_' :: b = (a ++ ['_']) ++ b by simp]
    rw [show a.length + 1 = (a ++ ['_']).length by simp]
    exact List.drop_left (a ++ ['_']) b
  unfold split_aggregate_ref
  rw [h1]
  simp only [ge_iff_le]
  rw [if_neg (by omega), htake, hdrop]

/-- Helper: a string with no underscore makes `split_aggregate_ref` raise
the `ArgumentError` suggesting `s + "_sum"`. -/
theorem split_aggregate_ref_noUnderscore {s : String} (h : '_' ∉ s.data) :
    split_aggregate_ref s =
      .error (.argumentError (invalidAggMsg s (s ++ "_sum"))) := by
  unfold split_aggregate_ref
  rw [rfindChar_eq_none.mpr h]

/-- Helper: a string whose last character is the underscore (and which
contains one) makes `split_aggregate_ref` raise the `ArgumentError`
suggesting `s + "sum"`. -/
theorem split_aggregate_ref_trailing {s : String} (hmem : '_' ∈ s.data)
    (hlast : s.data.getLast? = some '_') :
    split_aggregate_ref s =
      .error (.argumentError (invalidAggMsg s (s ++ "sum"))) := by
  obtain ⟨i, hi⟩ : ∃ i, rfindChar s.data '_' = some i := by
    cases h : rfindChar s.data '_' with
    | none => exact absurd (rfindChar_eq_none.mp h) (by simp [hmem])
    | some i => exact ⟨i, rfl⟩
  obtain ⟨a, b, hsd, hilen, hb⟩ := rfindChar_eq_some hi
  have hbnil : b = [] := by
    by_contra hbne
    rw [hsd, List.getLast?_append_cons,
      show ('_' :: b) = ['_'] ++ b from rfl,
      List.getLast?_append_of_ne_nil _ hbne,
      List.getLast?_eq_getLast_of_ne_nil hbne, Option.some.injEq] at hlast
    exact hb (hlast ▸ List.getLast_mem hbne)
  subst hbnil
  have hslen : s.data.length = a.length + 1 := by rw [hsd]; simp
  unfold split_aggregate_ref
  rw [hi]
  simp only [ge_iff_le]
  rw [if_pos (by omega)]

/-- Claim C3: for every measure name `m` and every non-empty
underscore-free aggregate-function name `f`,
`split_aggregate_ref (aggregate_ref m f) = (m, f)`; in particular
`aggregate_ref "amount" "sum" = "amount_sum"` and
`split_aggregate_ref "amount_sum" = ("amount", "sum")`. -/
theorem claim_C3 :
    (∀ m f : String, f ≠ "" → '_' ∉ f.data →
      split_aggregate_ref (aggregate_ref m f) = .ok (m, f)) ∧
    aggregate_ref "amount" "sum" = "amount_sum" ∧
    split_aggregate_ref "amount_sum" = .ok ("amount", "sum") := by
  refine ⟨?_, rfl, by decide⟩
  intro m f hne hnu
  have hdata : (aggregate_ref m f).data = m.data ++ '_' :: f.data := by
    simp [aggregate_ref, String.data_append]
  have hfd : f.data ≠ [] := by
    intro hd
    apply hne
    cases f
    simp at hd
    simp [hd]
  exact split_aggregate_ref_ok (aggregate_ref m f) m.data f.data hdata hnu hfd

/-- Witness for claim C3 at `m = "amount"`, `f = "sum"`. -/
theorem claim_C3_witness :
    split_aggregate_ref (aggregate_ref "amount" "sum") =
      .ok ("amount", "sum") :=
  claim_C3.1 "amount" "sum" (by decide) (by decide)

/-- Claim C4: `split_aggregate_ref s` raises an `ArgumentError` whose
message reports the likely intended name exactly when `s` has no
underscore or its last underscore is the final character; otherwise it
returns the split of `s` at its last underscore. -/
theorem claim_C4 (s : String) :
    ('_' ∉ s.data →
      split_aggregate_ref s =
        .error (.argumentError (invalidAggMsg s (s ++ "_sum")))) ∧
    ('_' ∈ s.data → s.data.getLast? = some '_' →
      split_aggregate_ref s =
        .error (.argumentError (invalidAggMsg s (s ++ "sum")))) ∧
    ('_' ∈ s.data → s.data.getLast? ≠ some '_' →
      ∃ a b : List Char, s.data = a ++ '_' :: b ∧ '_' ∉ b ∧
        split_aggregate_ref s = .ok (⟨a⟩, ⟨b⟩)) := by
  refine ⟨fun h => split_aggregate_ref_noUnderscore h,
          fun hm hl => split_aggregate_ref_trailing hm hl,
          fun hm hl => ?_⟩
  obtain ⟨i, hi⟩ : ∃ i, rfindChar s.data '_' = some i := by
    cases h : rfindChar s.data '_' with
    | none => exact absurd (rfindChar_eq_none.mp h) (by simp [hm])
    | some i => exact ⟨i, rfl⟩
  obtain ⟨a, b, hsd, hilen, hb⟩ := rfindChar_eq_some hi
  have hbne : b ≠ [] := by
    intro hbnil
    subst hbnil
    apply hl
    rw [hsd, List.getLast?_append_cons]
    rfl
  exact ⟨a, b, hsd, hb, split_aggregate_ref_ok s a b hsd hb hbne⟩

/-- Witness for claim C4 at `s = "noUnderscore"` (the example given in the
specification). -/
theorem claim_C4_witness :
    split_aggregate_ref "noUnderscore" =
      .error (.argumentError (invalidAggMsg "noUnderscore" "noUnderscore_sum")) :=
  (claim_C4 "noUnderscore").1 (by decide)

/-- Helper: `refBase` of an attribute whose dimension is flat and without
details is the dimension name. -/
theorem refBase_flat {a : Attribute} {s : DimSummary}
    (h : a.dimension = some s) (hf : s.is_flat = true)
    (hd : s.has_details = false) : a.refBase true = s.name := by
  unfold Attribute.refBase
  rw [h]
  simp [hf, hd]

/-- Helper: `refBase` of an attribute whose dimension is not flat, or has
details, is `dimension.attribute`. -/
theorem refBase_notFlat {a : Attribute} {s : DimSummary}
    (h : a.dimension = some s)
    (hnf : s.is_flat = false ∨ s.has_details = true) :
    a.refBase true = s.name ++ "." ++ a.name := by
  unfold Attribute.refBase
  rw [h]
  rcases hnf with hf | hd
  · simp [hf]
  · simp [hd]

/-- Claim C2: for every attribute owned by a dimension `d` (its
back-reference points at `d`), `ref()` with the default `simplify=True`
and no locale returns `d`'s name when `d` has exactly one level and no
level has more than one attribute, and `d.name ++ "." ++ a.name`
otherwise. -/
theorem claim_C2 (d : Dimension) (a : Attribute)
    (h : a.dimension = some d.summary) :
    ((d.levels.length = 1 ∧ ∀ l ∈ d.levels, l.attributes.length ≤ 1) →
      Attribute.ref a true none = .ok d.name) ∧
    (¬ (d.levels.length = 1 ∧ ∀ l ∈ d.levels, l.attributes.length ≤ 1) →
      Attribute.ref a true none = .ok (d.name ++ "." ++ a.name)) := by
  have hval : Attribute.ref a true none = .ok (a.refBase true) := rfl
  constructor
  · rintro ⟨h1, h2⟩
    have hf : d.summary.is_flat = true := by
      simp [Dimension.summary, Dimension.is_flat, h1]
    have hd : d.summary.has_details = false := by
      simp only [Dimension.summary, Dimension.has_details]
      rw [List.any_eq_false]
      intro l hl
      have hle := h2 l hl
      simp only [Level.has_details, decide_eq_true_eq]
      omega
    rw [hval, refBase_flat h hf hd]
    rfl
  · intro hnot
    have hcase : d.summary.is_flat = false ∨ d.summary.has_details = true := by
      by_cases h1 : d.levels.length = 1
      · right
        have h2 : ¬ ∀ l ∈ d.levels, l.attributes.length ≤ 1 := by
          intro h2; exact hnot ⟨h1, h2⟩
        push_neg at h2
        obtain ⟨l, hl, hlen⟩ := h2
        simp only [Dimension.summary, Dimension.has_details, List.any_eq_true]
        exact ⟨l, hl, by simp [Level.has_details]; omega⟩
      · left
        simp [Dimension.summary, Dimension.is_flat, h1]
    rw [hval, refBase_notFlat h hcase]
    rfl

/-- A concrete flat dimension (one level, one attribute) for the claim C2
witness. -/
def flatDimC2 : Dimension :=
  { oid := 1, name := "flatd",
    levels := [{ name := "l", attributes := [{ name := "a" }] }] }

/-- Witness for claim C2: an attribute of the flat dimension `flatDimC2`
has reference `"flatd"`. -/
theorem claim_C2_witness :
    Attribute.ref { name := "a", dimension := some flatDimC2.summary } true
      none = .ok "flatd" :=
  (claim_C2 flatDimC2 { name := "a", dimension := some flatDimC2.summary }
    rfl).1 (by decide)

/-- Helper: a successful `odLookup` comes from an entry of the list. -/
theorem odLookup_mem {α : Type} {l : List (String × α)} {k : String} {v : α}
    (h : odLookup l k = some v) : ∃ k0, (k0, v) ∈ l := by
  unfold odLookup at h
  cases hf : l.find? (fun p => p.1 == k) with
  | none => rw [hf] at h; cases h
  | some p =>
    rw [hf] at h
    cases h
    exact ⟨p.1, by have := List.mem_of_find?_eq_some hf; simpa using this⟩

/-- Helper: for a well-formed dimension, the truthiness evaluation of a
hierarchy from its dict succeeds and returns the hierarchy itself. -/
theorem hierLenCheck_ok {d : Dimension} {k : String} {h : Hierarchy}
    (hwf : d.WFHierarchies) (hm : (k, h) ∈ d.hierarchies) :
    hierLenCheck d h = .ok h := by
  obtain ⟨hne, hres⟩ := hwf (k, h) hm
  unfold hierLenCheck
  rw [if_neg (by simpa using hne)]
  have hfind : h.levelNames.find?
      (fun n => !(d.levels.any (fun l => l.name == n))) = none := by
    rw [List.find?_eq_none]
    intro n hn
    simp [hres n hn]
  rw [hfind]

/-- Claim C1 counterexample: a dimension with two hierarchies named
`default` and `other` and no explicit default-hierarchy name.  The claim
as stated predicts an ambiguous-default `ModelError` (no name is set and
neither exactly one nor zero hierarchies exist), but `hierarchy()`
succeeds, returning the hierarchy named `default`: the code falls back to
the implicit lookup name `"default"` before counting hierarchies. -/
def lvlC1 : Level := { name := "l1", attributes := [{ name := "a1" }] }

def hierC1a : Hierarchy := { name := "default", levelNames := ["l1"] }

def hierC1b : Hierarchy := { name := "other", levelNames := ["l1"] }

def dimC1 : Dimension :=
  { name := "d", levels := [lvlC1],
    hierarchies := [("default", hierC1a), ("other", hierC1b)] }

/-- Claim C1 is false as stated: on `dimC1` (no default-hierarchy name
set, two hierarchies) the claim requires an ambiguous-default
`ModelError`, but `hierarchy()` returns the hierarchy named
`"default"`. -/
theorem claim_C1_counterexample :
    dimC1.default_hierarchy_name = none ∧
    dimC1.hierarchies.length = 2 ∧
    dimC1.hierarchy none = .ok hierC1a := by
  refine ⟨rfl, rfl, by decide⟩

/-- Claim C1 (amended): for every dimension with an unpopulated
`_flat_hierarchy` cache (the only reachable state: the code that would
populate it crashes first) whose hierarchies are well-formed,
`hierarchy()` (= `hierarchy(None)`) resolves deterministically: the lookup
name is the explicit default-hierarchy name when set, else `"default"`;
a hierarchy of that name is returned when present; else a sole hierarchy
is returned; else with zero hierarchies and exactly one level the call
fails with a `NameError` (the singleton-synthesis code references
undefined variables, and nothing is cached); any other configuration
fails with a `ModelError`. -/
theorem claim_C1 (d : Dimension) (hwf : d.WFHierarchies)
    (hflat : d.flat_hierarchy = none) :
    d.hierarchy none = d.defaultHierarchy ∧
    (∀ h : Hierarchy,
      odLookup d.hierarchies d.defaultLookupName = some h →
      d.hierarchy none = .ok h) ∧
    (odLookup d.hierarchies d.defaultLookupName = none →
      ∀ (k : String) (h : Hierarchy), d.hierarchies = [(k, h)] →
      d.hierarchy none = .ok h) ∧
    (odLookup d.hierarchies d.defaultLookupName = none →
      d.hierarchies = [] → d.levels.length = 1 →
      ∃ msg, d.hierarchy none = .error (.nameError msg)) ∧
    (odLookup d.hierarchies d.defaultLookupName = none →
      d.hierarchies = [] → d.levels.length ≠ 1 →
      ∃ msg, d.hierarchy none = .error (.modelError msg)) ∧
    (odLookup d.hierarchies d.defaultLookupName = none →
      2 ≤ d.hierarchies.length →
      ∃ msg, d.hierarchy none = .error (.modelError msg)) := by
  have hh : d.hierarchy none = d.defaultHierarchy := rfl
  refine ⟨rfl, ?_, ?_, ?_, ?_, ?_⟩
  · intro h hlook
    obtain ⟨k0, hk0⟩ := odLookup_mem hlook
    rw [hh]
    unfold Dimension.defaultHierarchy
    rw [hlook]
    exact hierLenCheck_ok hwf hk0
  · intro hlook k h hsing
    rw [hh]
    unfold Dimension.defaultHierarchy
    rw [hlook, hsing]
  · intro hlook hnil hlen
    rw [hh]
    unfold Dimension.defaultHierarchy
    rw [hlook, hnil]
    simp only [if_pos hlen, hflat]
    exact ⟨_, rfl⟩
  · intro hlook hnil hlen
    rw [hh]
    unfold Dimension.defaultHierarchy
    rw [hlook, hnil]
    simp only [if_neg hlen]
    by_cases hgt : d.levels.length > 1
    · rw [if_pos hgt]; exact ⟨_, rfl⟩
    · rw [if_neg hgt]; exact ⟨_, rfl⟩
  · intro hlook hge
    rw [hh]
    unfold Dimension.defaultHierarchy
    rw [hlook]
    match hd : d.hierarchies, hge with
    | p :: q :: rest, _ => exact ⟨_, rfl⟩

/-- Witness for claim C1 at the concrete dimension `dimC1`: the implicit
lookup name `"default"` is found, so the hierarchy named `default` is
returned. -/
theorem claim_C1_witness :
    Dimension.hierarchy dimC1 none = .ok hierC1a :=
  ((claim_C1 dimC1 (by decide) rfl).2.1) hierC1a (by decide)

/-- Helper: an `OrderedDict` assignment never empties the dict. -/
theorem odInsert_ne_nil {α : Type} (l : List (String × α)) (k : String)
    (v : α) : odInsert l k v ≠ [] := by
  unfold odInsert
  by_cases h : l.any (fun p => p.1 == k)
  · rw [if_pos h]
    intro hc
    rw [List.map_eq_nil_iff] at hc
    subst hc
    cases h
  · rw [if_neg h]
    simp

/-- Helper: folding `OrderedDict` assignments over a non-empty accumulator
keeps it non-empty. -/
theorem foldl_odInsert_ne_nil {α : Type} (l : List (String × α))
    (acc : List (String × α)) (hacc : acc ≠ []) :
    l.foldl (fun acc p => odInsert acc p.1 p.2) acc ≠ [] := by
  induction l generalizing acc with
  | nil => exact hacc
  | cons x rest ih =>
    exact ih (odInsert acc x.1 x.2) (odInsert_ne_nil acc x.1 x.2)

/-- Helper: an `OrderedDict` built from a non-empty pair list is
non-empty. -/
theorem odFromList_ne_nil {α : Type} {l : List (String × α)} (h : l ≠ []) :
    odFromList l ≠ [] := by
  match l, h with
  | x :: rest, _ =>
    unfold odFromList
    exact foldl_odInsert_ne_nil rest (odInsert [] x.1 x.2)
      (odInsert_ne_nil [] x.1 x.2)

/-- Claim C9: every successfully constructed dimension has a non-empty
hierarchy mapping (so the zero-hierarchies branch of default-hierarchy
resolution is unreachable for constructor-built dimensions); when no
hierarchies are passed, the synthesized mapping is exactly one hierarchy
named `default` spanning all levels in order; and the dimension
back-reference of every hierarchy is set to the new dimension. -/
theorem claim_C9 (oid : Nat) (name : String) (levels : List Level)
    (hs : Option (List Hierarchy)) (dhn : Option String)
    (lb ds : Option String) (d : Dimension)
    (h : dimInit oid name levels hs dhn lb ds = .ok d) :
    d.hierarchies ≠ [] ∧
    (hs = none →
      d.hierarchies = [("default",
        { name := "default", levelNames := d.levels.map Level.name,
          dimension := some name })]) ∧
    (∀ p ∈ d.hierarchies, p.2.dimension = some name) := by
  unfold dimInit at h
  by_cases hemp : levels.isEmpty
  · rw [if_pos hemp] at h
    cases h
  · rw [if_neg hemp] at h
    injection h with h
    subst h
    refine ⟨?_, ?_, ?_⟩
    · show (Dimension.hierarchies _) ≠ []
      cases hs with
      | none => simp [Dimension.hierarchies]
      | some hl =>
        by_cases hle : hl.isEmpty
        · simp [Dimension.hierarchies, hle]
        · simp only [Dimension.hierarchies, hle, if_neg, Bool.false_eq_true,
            ite_false, ne_eq, List.map_eq_nil_iff]
          apply odFromList_ne_nil
          intro hc
          rw [List.map_eq_nil_iff] at hc
          subst hc
          simp at hle
    · intro hnone
      subst hnone
      rfl
    · intro p hp
      simp only [Dimension.hierarchies, List.mem_map] at hp
      obtain ⟨q, _, rfl⟩ := hp
      rfl

/-- Concrete levels and the resulting dimension for the claim C9
witness: a two-level dimension built with no hierarchy argument. -/
def lvlC9a : Level := { name := "year", attributes := [{ name := "year" }] }

def lvlC9b : Level := { name := "month", attributes := [{ name := "month" }] }

def dimSumC9 : DimSummary :=
  { oid := 7, name := "date", is_flat := false, has_details := false }

def dimC9res : Dimension :=
  { oid := 7, name := "date",
    levels := [{ name := "year",
                 attributes := [{ name := "year",
                                  dimension := some dimSumC9 }] },
               { name := "month",
                 attributes := [{ name := "month",
                                  dimension := some dimSumC9 }] }],
    hierarchies := [("default", { name := "default",
                                  levelNames := ["year", "month"],
                                  dimension := some "date" })] }

/-- Witness for claim C9 at the concrete two-level dimension. -/
theorem claim_C9_witness :
    dimC9res.hierarchies ≠ [] ∧
    dimC9res.hierarchies = [("default",
      { name := "default", levelNames := dimC9res.levels.map Level.name,
        dimension := some "date" })] :=
  have h : dimInit 7 "date" [lvlC9a, lvlC9b] none none none none =
      .ok dimC9res := by decide
  have hc := claim_C9 7 "date" [lvlC9a, lvlC9b] none none none none dimC9res h
  ⟨hc.1, hc.2.1 rfl⟩

/-- Helper: the dimension loop of `add_cube` on dimensions that are each
either identity-present in the snapshot or fresh-named (with respect to
both the model snapshot and the `extra` dimensions added earlier in the
loop) succeeds and appends exactly the not-identity-present ones. -/
theorem addCubeDims_ok (M0 : Model) (cname : String) :
    ∀ (ds : List Dimension) (extra : List Dimension),
    (∀ d ∈ ds, memIdentity d M0.dimensions = true ∨
      (d.name ∉ M0.dimensions.map Dimension.name ∧
       d.name ∉ extra.map Dimension.name)) →
    (ds.map Dimension.name).Nodup →
    addCubeDims M0.dimensions (M0.dimensions.map Dimension.name) cname
      { M0 with dimensions := M0.dimensions ++ extra } ds =
      .ok { M0 with dimensions := M0.dimensions ++ extra ++ ds.filter (fun d => !(memIdentity d M0.dimensions)) } := by
  intro ds
  induction ds with
  | nil =>
    intro extra _ _
    simp [addCubeDims]
  | cons d rest ih =>
    intro extra h hnodup
    rw [List.map_cons, List.nodup_cons] at hnodup
    unfold addCubeDims
    by_cases hid : memIdentity d M0.dimensions = true
    · rw [if_pos hid]
      have := ih extra (fun d0 hd0 => h d0 (List.mem_cons_of_mem d hd0))
        hnodup.2
      rw [this, List.filter_cons_of_neg (by simp [hid])]
    · have hfresh := (h d (List.mem_cons_self d rest)).resolve_left hid
      rw [if_neg hid]
      have hcont : (M0.dimensions.map Dimension.name).contains d.name
          = false := by
        rw [List.contains_eq_any_beq, List.any_eq_false]
        intro x hx
        simp only [beq_iff_eq]
        intro he
        exact hfresh.1 (he ▸ hx)
      rw [hcont]
      simp only [Bool.not_false, if_true]
      have hadd : Model.add_dimension
          { M0 with dimensions := M0.dimensions ++ extra } d =
          .ok { M0 with dimensions := M0.dimensions ++ (extra ++ [d]) } := by
        unfold Model.add_dimension
        rw [if_neg ?side]
        · simp only [Except.ok.injEq]
          congr 1
          simp [List.append_assoc]
        case side =>
          simp only [List.any_eq_true, not_exists]
          rintro x ⟨hx, hbeq⟩
          rw [beq_iff_eq] at hbeq
          rcases List.mem_append.mp hx with hx0 | hx1
          · exact hfresh.1 (hbeq ▸ List.mem_map_of_mem Dimension.name hx0)
          · exact hfresh.2 (hbeq ▸ List.mem_map_of_mem Dimension.name hx1)
      rw [hadd]
      have hres := ih (extra ++ [d]) ?hyp hnodup.2
      case hyp =>
        intro d0 hd0
        rcases h d0 (List.mem_cons_of_mem d hd0) with hid0 | ⟨hn1, hn2⟩
        · exact Or.inl hid0
        · refine Or.inr ⟨hn1, ?_⟩
          rw [List.map_append, List.mem_append]
          rintro (hx | hx)
          · exact hn2 hx
          · simp only [List.map_cons, List.map_nil, List.mem_singleton] at hx
            exact hnodup.1 (hx ▸ List.mem_map_of_mem Dimension.name hd0)
      refine hres.trans ?_
      have hfil : List.filter (fun d0 => !memIdentity d0 M0.dimensions)
          (d :: rest) =
          d :: List.filter (fun d0 => !memIdentity d0 M0.dimensions) rest :=
        List.filter_cons_of_pos (by simp [hid])
      rw [hfil]
      congr 1
      simp [List.append_assoc]

/-- Helper: the dimension loop of `add_cube` fails with a `ModelError`
when some dimension is not identity-present but its name is taken in the
model snapshot. -/
theorem addCubeDims_err (M0 : Model) (cname : String) :
    ∀ (ds : List Dimension) (extra : List Dimension),
    (∀ d ∈ ds, (memIdentity d M0.dimensions = false ∧
        d.name ∉ M0.dimensions.map Dimension.name) →
        d.name ∉ extra.map Dimension.name) →
    (ds.map Dimension.name).Nodup →
    (∃ d ∈ ds, memIdentity d M0.dimensions = false ∧
      d.name ∈ M0.dimensions.map Dimension.name) →
    ∃ msg, addCubeDims M0.dimensions (M0.dimensions.map Dimension.name)
      cname { M0 with dimensions := M0.dimensions ++ extra } ds =
      .error (.modelError msg) := by
  intro ds
  induction ds with
  | nil =>
    rintro extra _ _ ⟨d, hd, _⟩
    cases hd
  | cons d rest ih =>
    rintro extra hex hnodup ⟨w, hw, hwid, hwname⟩
    rw [List.map_cons, List.nodup_cons] at hnodup
    unfold addCubeDims
    by_cases hid : memIdentity d M0.dimensions = true
    · rw [if_pos hid]
      have hwrest : w ∈ rest := by
        rcases List.mem_cons.mp hw with hweq | hwr
        · subst hweq; rw [hid] at hwid; cases hwid
        · exact hwr
      exact ih extra (fun d0 hd0 => hex d0 (List.mem_cons_of_mem d hd0))
        hnodup.2 ⟨w, hwrest, hwid, hwname⟩
    · rw [if_neg hid]
      by_cases hname : d.name ∈ M0.dimensions.map Dimension.name
      · have hcont : (M0.dimensions.map Dimension.name).contains d.name
            = true := by
          rw [List.contains_eq_any_beq, List.any_eq_true]
          exact ⟨d.name, hname, by simp⟩
        rw [hcont]
        exact ⟨_, rfl⟩
      · have hcont : (M0.dimensions.map Dimension.name).contains d.name
            = false := by
          rw [List.contains_eq_any_beq, List.any_eq_false]
          intro x hx
          simp only [beq_iff_eq]
          intro he
          exact hname (he ▸ hx)
        rw [hcont]
        simp only [Bool.not_false, if_true]
        have hexd := hex d (List.mem_cons_self d rest)
          ⟨Bool.eq_false_iff.mpr hid, hname⟩
        have hadd : Model.add_dimension
            { M0 with dimensions := M0.dimensions ++ extra } d =
            .ok { M0 with dimensions := M0.dimensions ++ (extra ++ [d]) } := by
          unfold Model.add_dimension
          rw [if_neg ?side]
          · simp only [Except.ok.injEq]
            congr 1
            simp [List.append_assoc]
          case side =>
            simp only [List.any_eq_true, not_exists]
            rintro x ⟨hx, hbeq⟩
            rw [beq_iff_eq] at hbeq
            rcases List.mem_append.mp hx with hx0 | hx1
            · exact hname (hbeq ▸ List.mem_map_of_mem Dimension.name hx0)
            · exact hexd (hbeq ▸ List.mem_map_of_mem Dimension.name hx1)
        rw [hadd]
        have hwrest : w ∈ rest := by
          rcases List.mem_cons.mp hw with hweq | hwr
          · subst hweq; exact absurd hwname hname
          · exact hwr
        refine ih (extra ++ [d]) ?_ hnodup.2 ⟨w, hwrest, hwid, hwname⟩
        intro d0 hd0 hd0c
        rw [List.map_append, List.mem_append]
        rintro (hx | hx)
        · exact hex d0 (List.mem_cons_of_mem d hd0) hd0c hx
        · simp only [List.map_cons, List.map_nil, List.mem_singleton] at hx
          exact hnodup.1 (hx ▸ List.mem_map_of_mem Dimension.name hd0)

/-- Helper: the dimension loop of `add_cube` skips every dimension that is
identity-present in the snapshot, leaving the model untouched. -/
theorem addCubeDims_skip (snapDims : List Dimension)
    (snapNames : List String) (cname : String) :
    ∀ (ds : List Dimension) (M : Model),
    (∀ d ∈ ds, memIdentity d snapDims = true) →
    addCubeDims snapDims snapNames cname M ds = .ok M := by
  intro ds
  induction ds with
  | nil => intro M _; rfl
  | cons d rest ih =>
    intro M h
    unfold addCubeDims
    rw [if_pos (h d (List.mem_cons_self d rest))]
    exact ih M (fun d0 hd0 => h d0 (List.mem_cons_of_mem d hd0))

/-- Claim C5: `Model.add_cube` registers every cube dimension not yet in
the model (the success case appends exactly the not-identity-present
dimensions and stores the cube); it raises `ModelError` when a cube
dimension distinct from every registered dimension shares a name with a
registered one; and a cube all of whose dimensions are already
identity-present is added without touching the dimension registry (no
duplication).  The dimension names of the cube are pairwise distinct, as
`Cube.add_dimension` guarantees for every constructed cube. -/
theorem claim_C5 (M : Model) (c : Cube)
    (hnodup : (c.dimensions.map Dimension.name).Nodup) :
    ((∀ d ∈ c.dimensions, memIdentity d M.dimensions = true ∨
        d.name ∉ M.dimensions.map Dimension.name) →
      M.add_cube c = .ok { M with dimensions := M.dimensions ++ c.dimensions.filter (fun d => !(memIdentity d M.dimensions)), cubes := odInsert M.cubes c.name c }) ∧
    ((∃ d ∈ c.dimensions, memIdentity d M.dimensions = false ∧
        d.name ∈ M.dimensions.map Dimension.name) →
      ∃ msg, M.add_cube c = .error (.modelError msg)) ∧
    ((∀ d ∈ c.dimensions, memIdentity d M.dimensions = true) →
      M.add_cube c = .ok { M with cubes := odInsert M.cubes c.name c }) := by
  have hM : { M with dimensions := M.dimensions ++ ([] : List Dimension) }
      = M := by simp
  refine ⟨?_, ?_, ?_⟩
  · intro h
    have hok := addCubeDims_ok M c.name c.dimensions []
      (fun d hd => (h d hd).imp_right (fun hn => ⟨hn, by simp⟩)) hnodup
    rw [hM] at hok
    unfold Model.add_cube
    rw [hok]
    simp
  · intro hex
    have herr := addCubeDims_err M c.name c.dimensions []
      (fun d _ _ => by simp) hnodup hex
    rw [hM] at herr
    obtain ⟨msg, hmsg⟩ := herr
    unfold Model.add_cube
    rw [hmsg]
    exact ⟨msg, rfl⟩
  · intro h
    unfold Model.add_cube
    rw [addCubeDims_skip M.dimensions (M.dimensions.map Dimension.name)
      c.name c.dimensions M h]

/-- Concrete objects for the claim C5 witness: a model owning dimension
`dimC5a`, and a cube referencing that same object plus a fresh
dimension. -/
def dimC5a : Dimension :=
  { oid := 11, name := "geo",
    levels := [{ name := "g", attributes := [{ name := "g" }] }] }

def dimC5b : Dimension :=
  { oid := 12, name := "time",
    levels := [{ name := "t", attributes := [{ name := "t" }] }] }

def modelC5 : Model := { dimensions := [dimC5a] }

def cubeC5 : Cube := { name := "sales", dimensions := [dimC5a, dimC5b] }

/-- Witness for claim C5: adding `cubeC5` to `modelC5` succeeds,
registering only the fresh dimension. -/
theorem claim_C5_witness :
    modelC5.add_cube cubeC5 = .ok { modelC5 with dimensions := modelC5.dimensions ++ cubeC5.dimensions.filter (fun d => !(memIdentity d modelC5.dimensions)), cubes := odInsert modelC5.cubes cubeC5.name cubeC5 } :=
  (claim_C5 modelC5 cubeC5 (by decide)).1 (by decide)

/-- Claim C10: `Model.add_dimension` raises `ModelInconsistencyError`
whenever a dimension of the same name is already registered — including
when the argument is the very same registered object — while
`Model.add_cube` deduplicates by skipping identity-present dimensions
before ever calling `add_dimension`. -/
theorem claim_C10 :
    (∀ (M : Model) (d : Dimension),
      (∃ d0 ∈ M.dimensions, d0.name = d.name) →
      M.add_dimension d = .error (.modelInconsistencyError
        ("Dimension " ++ d.name ++ " already exists in model"))) ∧
    (∀ (M : Model) (d : Dimension), d ∈ M.dimensions →
      M.add_dimension d = .error (.modelInconsistencyError
        ("Dimension " ++ d.name ++ " already exists in model"))) ∧
    (∀ (M : Model) (c : Cube),
      (∀ d ∈ c.dimensions, memIdentity d M.dimensions = true) →
      M.add_cube c = .ok { M with cubes := odInsert M.cubes c.name c }) := by
  have hbase : ∀ (M : Model) (d : Dimension),
      (∃ d0 ∈ M.dimensions, d0.name = d.name) →
      M.add_dimension d = .error (.modelInconsistencyError
        ("Dimension " ++ d.name ++ " already exists in model")) := by
    intro M d ⟨d0, hd0, hname⟩
    unfold Model.add_dimension
    rw [if_pos]
    rw [List.any_eq_true]
    exact ⟨d0, hd0, by simp [hname]⟩
  refine ⟨hbase, fun M d hd => hbase M d ⟨d, hd, rfl⟩, ?_⟩
  intro M c h
  unfold Model.add_cube
  rw [addCubeDims_skip M.dimensions (M.dimensions.map Dimension.name)
    c.name c.dimensions M h]

/-- A cube referencing only the already-registered dimension object, for
the claim C10 witness. -/
def cubeC10 : Cube := { name := "facts", dimensions := [dimC5a] }

/-- Witness for claim C10: re-adding the registered object `dimC5a` to
`modelC5` fails, while a cube referencing only `dimC5a` is added without
touching the dimension registry. -/
theorem claim_C10_witness :
    modelC5.add_dimension dimC5a = .error (.modelInconsistencyError
      "Dimension geo already exists in model") ∧
    modelC5.add_cube cubeC10 =
      .ok { modelC5 with cubes := odInsert modelC5.cubes cubeC10.name cubeC10 } :=
  ⟨claim_C10.2.1 modelC5 dimC5a (by decide),
   claim_C10.2.2 modelC5 cubeC10 (by decide)⟩

/-- Helper: adding pairwise-distinctly-named dimensions to a cube
succeeds and collects them in order. -/
theorem cubeAddDims_ok :
    ∀ (ds acc : List Dimension),
    (((acc ++ ds).map Dimension.name)).Nodup →
    cubeAddDims acc ds = .ok (acc ++ ds) := by
  intro ds
  induction ds with
  | nil =>
    intro acc _
    simp [cubeAddDims]
  | cons d rest ih =>
    intro acc hnodup
    unfold cubeAddDims
    rw [if_neg ?fresh]
    case fresh =>
      simp only [List.any_eq_true, not_exists]
      rintro x ⟨hx, hbeq⟩
      rw [beq_iff_eq] at hbeq
      rw [List.map_append, List.nodup_append] at hnodup
      exact hnodup.2.2 (List.mem_map_of_mem Dimension.name hx)
        (by simp [hbeq])
    have := ih (acc ++ [d]) (by simpa [List.append_assoc] using hnodup)
    rw [this]
    simp [List.append_assoc]

/-- Helper: with distinctly-named dimensions, `cubeInit` reduces to the
measure/aggregate wiring. -/
theorem cubeInit_eq_aggs (name : String) (dims : List Dimension)
    (measures : List Measure) (aggregates : Option (List MeasureAggregate))
    (details : List Attribute)
    (hnd : (dims.map Dimension.name).Nodup) :
    cubeInit name dims measures aggregates details =
      cubeInitAggs name dims measures aggregates details := by
  unfold cubeInit
  rw [cubeAddDims_ok dims [] (by simpa using hnd)]
  simp

/-- Claim C7: `Cube` construction with an explicit aggregate list fails
with `NoSuchAttributeError` — before any cube is produced — whenever some
aggregate names a source measure absent from the measures of the cube (the
first such aggregate determines the message); with no offending aggregate
the explicit list is kept; and with no aggregate list at all the default
aggregates are synthesized per measure — one per aggregate function,
defaulting to the single function `sum`, each named
`<measure>_<function>`. -/
theorem claim_C7 (name : String) (dims : List Dimension)
    (measures : List Measure) (details : List Attribute)
    (hnd : (dims.map Dimension.name).Nodup) :
    (∀ aggs : List MeasureAggregate,
      (∃ a ∈ aggs, aggMeasureMissing (cubeMeasuresOd measures) a = true) →
      ∃ msg, cubeInit name dims measures (some aggs) details =
        .error (.noSuchAttributeError msg)) ∧
    (∀ (aggs : List MeasureAggregate) (a0 : MeasureAggregate),
      aggs.find? (fun a => aggMeasureMissing (cubeMeasuresOd measures) a) =
        some a0 →
      cubeInit name dims measures (some aggs) details =
        .error (.noSuchAttributeError ("No measure " ++ a0.measure.getD "" ++
          " for aggregate" ++ a0.name))) ∧
    (∀ aggs : List MeasureAggregate,
      (∀ a ∈ aggs, aggMeasureMissing (cubeMeasuresOd measures) a = false) →
      cubeInit name dims measures (some aggs) details =
        .ok { name := name, dimensions := dims,
              measures := cubeMeasuresOd measures,
              aggregates := odFromList (aggs.map (fun a => (a.name, a))),
              details := details }) ∧
    (cubeInit name dims measures none details =
      .ok { name := name, dimensions := dims,
            measures := cubeMeasuresOd measures,
            aggregates := odFromList
              (((odValues (cubeMeasuresOd measures)).flatMap
                Measure.default_aggregates).map (fun a => (a.name, a))),
            details := details }) ∧
    (∀ m : Measure,
      (Measure.default_aggregates m).map MeasureAggregate.name =
        m.aggListOrSum.map (fun f => m.name ++ "_" ++ f) ∧
      (∀ a ∈ Measure.default_aggregates m,
        a.measure = some m.name) ∧
      (m.aggregates = none → m.aggListOrSum = ["sum"])) := by
  refine ⟨?_, ?_, ?_, ?_, ?_⟩
  · intro aggs hex
    have hfind : ∃ a0, aggs.find?
        (fun a => aggMeasureMissing (cubeMeasuresOd measures) a) = some a0 := by
      cases hf : aggs.find?
          (fun a => aggMeasureMissing (cubeMeasuresOd measures) a) with
      | none =>
        obtain ⟨a, ha, hmiss⟩ := hex
        have := List.find?_eq_none.mp hf a ha
        rw [hmiss] at this
        cases this rfl
      | some a0 => exact ⟨a0, rfl⟩
    obtain ⟨a0, hf⟩ := hfind
    rw [cubeInit_eq_aggs name dims measures (some aggs) details hnd]
    simp only [cubeInitAggs]
    rw [hf]
    exact ⟨_, rfl⟩
  · intro aggs a0 hf
    rw [cubeInit_eq_aggs name dims measures (some aggs) details hnd]
    simp only [cubeInitAggs]
    rw [hf]
  · intro aggs hall
    have hf : aggs.find?
        (fun a => aggMeasureMissing (cubeMeasuresOd measures) a) = none :=
      List.find?_eq_none.mpr (fun a ha => by simp [hall a ha])
    rw [cubeInit_eq_aggs name dims measures (some aggs) details hnd]
    simp only [cubeInitAggs]
    rw [hf]
  · rw [cubeInit_eq_aggs name dims measures none details hnd]
    rfl
  · intro m
    refine ⟨?_, ?_, fun h => by unfold Measure.aggListOrSum; rw [h]⟩
    · unfold Measure.default_aggregates
      rw [List.map_map]
      rfl
    · intro a ha
      unfold Measure.default_aggregates at ha
      rw [List.mem_map] at ha
      obtain ⟨f, _, rfl⟩ := ha
      rfl

/-- Concrete measures/aggregates for the claim C7 witness. -/
def measC7 : Measure := { name := "amount" }

def aggC7bad : MeasureAggregate :=
  { name := "x_sum", measure := some "missing", function := some "sum" }

/-- Witness for claim C7: an explicit aggregate naming the unknown measure
`missing` fails with `NoSuchAttributeError`, and with no aggregate list
the default `amount_sum` aggregate is synthesized. -/
theorem claim_C7_witness :
    cubeInit "sales" [] [measC7] (some [aggC7bad]) [] =
      .error (.noSuchAttributeError
        "No measure missing for aggregatex_sum") ∧
    cubeInit "sales" [] [measC7] none [] =
      .ok { name := "sales", dimensions := [],
            measures := cubeMeasuresOd [measC7],
            aggregates := odFromList
              (((odValues (cubeMeasuresOd [measC7])).flatMap
                Measure.default_aggregates).map (fun a => (a.name, a))),
            details := [] } :=
  ⟨(claim_C7 "sales" [] [measC7] [] (by decide)).2.1 [aggC7bad] aggC7bad
      (by decide),
   (claim_C7 "sales" [] [measC7] [] (by decide)).2.2.2.1⟩

/-! ### Lemmas about `odLookup` / `odInsert` -/

theorem find?_map_keyFix {α : Type} (l : List (String × α)) (k r : String)
    (v : α) (hkr : k ≠ r) :
    (l.map (fun p => if p.1 == k then (k, v) else p)).find?
        (fun p => p.1 == r) =
      l.find? (fun p => p.1 == r) := by
  induction l with
  | nil => rfl
  | cons p rest ih =>
    by_cases hp : p.1 = k
    · rw [List.map_cons,
        show (if p.1 == k then (k, v) else p) = (k, v) from by simp [hp],
        List.find?_cons_of_neg _ (by simp [hkr]),
        List.find?_cons_of_neg _ (by simp [hp, hkr]), ih]
    · rw [List.map_cons,
        show (if p.1 == k then (k, v) else p) = p from by simp [hp]]
      by_cases hr : p.1 = r
      · rw [List.find?_cons_of_pos _ (by simp [hr]),
          List.find?_cons_of_pos _ (by simp [hr])]
      · rw [List.find?_cons_of_neg _ (by simp [hr]),
          List.find?_cons_of_neg _ (by simp [hr]), ih]

theorem find?_append_keyMiss {α : Type} (l : List (String × α))
    (k r : String) (v : α) (hkr : k ≠ r) :
    (l ++ [(k, v)]).find? (fun p => p.1 == r) =
      l.find? (fun p => p.1 == r) := by
  induction l with
  | nil =>
    rw [List.nil_append, List.find?_cons_of_neg _ (by simp [hkr])]
  | cons p rest ih =>
    by_cases hr : p.1 = r
    · rw [List.cons_append, List.find?_cons_of_pos _ (by simp [hr]),
        List.find?_cons_of_pos _ (by simp [hr])]
    · rw [List.cons_append, List.find?_cons_of_neg _ (by simp [hr]),
        List.find?_cons_of_neg _ (by simp [hr]), ih]

theorem odLookup_odInsert_ne {α : Type} (l : List (String × α))
    (k r : String) (v : α) (hkr : k ≠ r) :
    odLookup (odInsert l k v) r = odLookup l r := by
  unfold odInsert odLookup
  by_cases h : l.any (fun p => p.1 == k)
  · rw [if_pos h, find?_map_keyFix l k r v hkr]
  · rw [if_neg h, find?_append_keyMiss l k r v hkr]

theorem find?_map_keyHit {α : Type} (l : List (String × α)) (k : String)
    (v : α) (h : l.any (fun p => p.1 == k) = true) :
    (l.map (fun p => if p.1 == k then (k, v) else p)).find?
        (fun p => p.1 == k) = some (k, v) := by
  induction l with
  | nil => cases h
  | cons p rest ih =>
    by_cases hp : p.1 = k
    · rw [List.map_cons,
        show (if p.1 == k then (k, v) else p) = (k, v) from by simp [hp],
        List.find?_cons_of_pos _ (by simp)]
    · rw [List.map_cons,
        show (if p.1 == k then (k, v) else p) = p from by simp [hp],
        List.find?_cons_of_neg _ (by simp [hp])]
      apply ih
      simpa [hp] using h

theorem find?_append_keyHitLast {α : Type} (l : List (String × α))
    (k : String) (v : α) (h : l.any (fun p => p.1 == k) = false) :
    (l ++ [(k, v)]).find? (fun p => p.1 == k) = some (k, v) := by
  induction l with
  | nil =>
    rw [List.nil_append, List.find?_cons_of_pos _ (by simp)]
  | cons p rest ih =>
    rw [List.any_cons, Bool.or_eq_false_iff] at h
    rw [List.cons_append, List.find?_cons_of_neg _ (by simp [h.1]), ih h.2]

theorem odLookup_odInsert_self {α : Type} (l : List (String × α))
    (k : String) (v : α) :
    odLookup (odInsert l k v) k = some v := by
  unfold odInsert odLookup
  by_cases h : l.any (fun p => p.1 == k)
  · rw [if_pos h, find?_map_keyHit l k v h]
    rfl
  · rw [if_neg h, find?_append_keyHitLast l k v (Bool.eq_false_iff.mpr h)]
    rfl

/-! ### Lemmas about the attribute/level loops of `Dimension.validate` -/

theorem vAttrStep_preserve {d : Dimension} {lname : String}
    {st : List String × List (String × String)} {a : Attribute}
    {r fn : String} (hr : r ∈ st.1) (hl : odLookup st.2 r = some fn) :
    r ∈ (vAttrStep d lname st a).2.1 ∧
    odLookup (vAttrStep d lname st a).2.2 r = some fn := by
  simp only [vAttrStep]
  by_cases hmem : a.refBase true ∈ st.1
  · rw [if_pos hmem]
    exact ⟨hr, hl⟩
  · rw [if_neg hmem]
    refine ⟨List.mem_cons_of_mem _ hr, ?_⟩
    exact (odLookup_odInsert_ne st.2 (a.refBase true) r lname
      (fun he => hmem (he ▸ hr))).trans hl

theorem vAttrStep_notMem {d : Dimension} {lname : String}
    {st : List String × List (String × String)} {a : Attribute}
    {r : String} (hne : a.refBase true ≠ r) (hr : r ∉ st.1) :
    r ∉ (vAttrStep d lname st a).2.1 := by
  simp only [vAttrStep]
  by_cases hmem : a.refBase true ∈ st.1
  · rw [if_pos hmem]
    exact hr
  · rw [if_neg hmem]
    intro hc
    rcases List.mem_cons.mp hc with he | he
    · exact hne he.symm
    · exact hr he

theorem vAttrs_preserve {d : Dimension} {lname : String} :
    ∀ (attrs : List Attribute)
      (st : List String × List (String × String)) {r fn : String},
    r ∈ st.1 → odLookup st.2 r = some fn →
    r ∈ (vAttrs d lname attrs st).2.1 ∧
    odLookup (vAttrs d lname attrs st).2.2 r = some fn := by
  intro attrs
  induction attrs with
  | nil => intro st r fn hr hl; exact ⟨hr, hl⟩
  | cons b rest ih =>
    intro st r fn hr hl
    have hstep := @vAttrStep_preserve d lname st b r fn hr hl
    simpa only [vAttrs] using ih (vAttrStep d lname st b).2 hstep.1 hstep.2

theorem vAttrs_notMem {d : Dimension} {lname : String} :
    ∀ (attrs : List Attribute)
      (st : List String × List (String × String)) {r : String},
    (∀ c ∈ attrs, c.refBase true ≠ r) → r ∉ st.1 →
    r ∉ (vAttrs d lname attrs st).2.1 := by
  intro attrs
  induction attrs with
  | nil => intro st r _ hr; exact hr
  | cons b rest ih =>
    intro st r hne hr
    have hstep := @vAttrStep_notMem d lname st b r
      (hne b (List.mem_cons_self b rest)) hr
    simpa only [vAttrs] using
      ih (vAttrStep d lname st b).2
        (fun c hc => hne c (List.mem_cons_of_mem b hc)) hstep

theorem vAttrs_establish {d : Dimension} {lname : String} :
    ∀ (attrs : List Attribute)
      (st : List String × List (String × String)) {r : String},
    r ∉ st.1 → (∃ a ∈ attrs, a.refBase true = r) →
    r ∈ (vAttrs d lname attrs st).2.1 ∧
    odLookup (vAttrs d lname attrs st).2.2 r = some lname := by
  intro attrs
  induction attrs with
  | nil =>
    rintro st r _ ⟨a, ha, _⟩
    cases ha
  | cons b rest ih =>
    rintro st r hr ⟨a, ha, har⟩
    by_cases hb : b.refBase true = r
    · have hstep1 : (vAttrStep d lname st b).2.1 = b.refBase true :: st.1 ∧
          (vAttrStep d lname st b).2.2 =
            odInsert st.2 (b.refBase true) lname := by
        simp only [vAttrStep]
        rw [if_neg (hb ▸ hr)]
        exact ⟨rfl, rfl⟩
      have h1 : r ∈ (vAttrStep d lname st b).2.1 := by
        rw [hstep1.1, hb]
        exact List.mem_cons_self r st.1
      have h2 : odLookup (vAttrStep d lname st b).2.2 r = some lname := by
        rw [hstep1.2, hb]
        exact odLookup_odInsert_self st.2 r lname
      simpa only [vAttrs] using
        vAttrs_preserve rest (vAttrStep d lname st b).2 h1 h2
    · have harest : a ∈ rest := by
        rcases List.mem_cons.mp ha with he | he
        · subst he; exact absurd har hb
        · exact he
      simpa only [vAttrs] using
        ih (vAttrStep d lname st b).2 (vAttrStep_notMem hb hr)
          ⟨a, harest, har⟩

theorem vAttrs_dup {d : Dimension} {lname : String} :
    ∀ (attrs : List Attribute)
      (st : List String × List (String × String)) {r fn : String}
      {a : Attribute},
    r ∈ st.1 → odLookup st.2 r = some fn → a ∈ attrs →
    a.refBase true = r →
    ("error", dupAttrMsg a.name d.name lname fn) ∈
      (vAttrs d lname attrs st).1 := by
  intro attrs
  induction attrs with
  | nil =>
    intro st r fn a _ _ ha _
    cases ha
  | cons b rest ih =>
    intro st r fn a hr hl ha har
    rcases List.mem_cons.mp ha with he | harest
    · subst he
      simp only [vAttrs]
      apply List.mem_append_left
      simp only [vAttrStep]
      rw [if_pos (har ▸ hr)]
      apply List.mem_append_left
      simp [har, hl]
    · have hstep := @vAttrStep_preserve d lname st b r fn hr hl
      simp only [vAttrs]
      exact List.mem_append_right _
        (ih (vAttrStep d lname st b).2 hstep.1 hstep.2 harest har)

theorem vLevelStep_preserve {d : Dimension}
    {st : List String × List (String × String)} {l : Level} {r fn : String}
    (hr : r ∈ st.1) (hl : odLookup st.2 r = some fn) :
    r ∈ (vLevelStep d st l).2.1 ∧
    odLookup (vLevelStep d st l).2.2 r = some fn := by
  simp only [vLevelStep]
  by_cases hemp : l.attributes.isEmpty
  · rw [if_pos hemp]
    exact ⟨hr, hl⟩
  · rw [if_neg hemp]
    exact vAttrs_preserve l.attributes st hr hl

theorem vLevelStep_notMem {d : Dimension}
    {st : List String × List (String × String)} {l : Level} {r : String}
    (hne : ∀ c ∈ l.attributes, c.refBase true ≠ r) (hr : r ∉ st.1) :
    r ∉ (vLevelStep d st l).2.1 := by
  simp only [vLevelStep]
  by_cases hemp : l.attributes.isEmpty
  · rw [if_pos hemp]
    exact hr
  · rw [if_neg hemp]
    exact vAttrs_notMem l.attributes st hne hr

theorem vLevelStep_establish {d : Dimension}
    {st : List String × List (String × String)} {l : Level} {r : String}
    (hr : r ∉ st.1) (hex : ∃ b ∈ l.attributes, b.refBase true = r) :
    r ∈ (vLevelStep d st l).2.1 ∧
    odLookup (vLevelStep d st l).2.2 r = some l.name := by
  have hemp : l.attributes.isEmpty = false := by
    obtain ⟨b, hb, _⟩ := hex
    cases hh : l.attributes with
    | nil => rw [hh] at hb; cases hb
    | cons x xs => rfl
  simp only [vLevelStep]
  rw [if_neg (by simp [hemp])]
  exact vAttrs_establish l.attributes st hr hex

theorem vLevelStep_dup {d : Dimension}
    {st : List String × List (String × String)} {l : Level} {r fn : String}
    {a : Attribute} (hr : r ∈ st.1) (hl : odLookup st.2 r = some fn)
    (ha : a ∈ l.attributes) (har : a.refBase true = r) :
    ("error", dupAttrMsg a.name d.name l.name fn) ∈ (vLevelStep d st l).1 := by
  have hemp : l.attributes.isEmpty = false := by
    cases hh : l.attributes with
    | nil => rw [hh] at ha; cases ha
    | cons x xs => rfl
  simp only [vLevelStep]
  rw [if_neg (by simp [hemp])]
  apply List.mem_append_right
  exact vAttrs_dup l.attributes st hr hl ha har

theorem vLevels_dup_from {d : Dimension} {lj : Level} {post : List Level}
    {r : String} {a : Attribute} (ha : a ∈ lj.attributes)
    (har : a.refBase true = r) :
    ∀ (mid : List Level) (st : List String × List (String × String))
      {fn : String},
    r ∈ st.1 → odLookup st.2 r = some fn →
    ("error", dupAttrMsg a.name d.name lj.name fn) ∈
      vLevels d (mid ++ lj :: post) st := by
  intro mid
  induction mid with
  | nil =>
    intro st fn hr hl
    simp only [List.nil_append, vLevels]
    exact List.mem_append_left _ (vLevelStep_dup hr hl ha har)
  | cons m rest ih =>
    intro st fn hr hl
    have hstep := @vLevelStep_preserve d st m r fn hr hl
    simp only [List.cons_append, vLevels]
    exact List.mem_append_right _
      (ih (vLevelStep d st m).2 hstep.1 hstep.2)

theorem vLevels_dup {d : Dimension} {li lj : Level}
    {mid post : List Level} {r : String} {a : Attribute}
    (hb : ∃ b ∈ li.attributes, b.refBase true = r)
    (ha : a ∈ lj.attributes) (har : a.refBase true = r) :
    ∀ (pre : List Level) (st : List String × List (String × String)),
    r ∉ st.1 →
    (∀ lk ∈ pre, ∀ c ∈ lk.attributes, c.refBase true ≠ r) →
    ("error", dupAttrMsg a.name d.name lj.name li.name) ∈
      vLevels d (pre ++ li :: mid ++ lj :: post) st := by
  intro pre
  induction pre with
  | nil =>
    intro st hr _
    have hest := @vLevelStep_establish d st li r hr hb
    simp only [List.nil_append, vLevels]
    exact List.mem_append_right _
      (vLevels_dup_from ha har mid (vLevelStep d st li).2 hest.1 hest.2)
  | cons p rest ih =>
    intro st hr hpre
    have hstep := @vLevelStep_notMem d st p r
      (hpre p (List.mem_cons_self p rest)) hr
    simp only [List.cons_append, vLevels]
    exact List.mem_append_right _
      (ih (vLevelStep d st p).2 hstep
        (fun lk hlk => hpre lk (List.mem_cons_of_mem p hlk)))

/-- Claim C8: `Dimension.validate()` on a dimension in which two levels
share an attribute reference name returns at least one `error` diagnostic
whose message names both the level where the duplicate appears and the
level of the first occurrence.  The levels are given by splitting
`d.levels` as `pre ++ li :: mid ++ lj :: post` with `li` the first level
containing the shared reference `r` and `lj` a later level containing it;
the hierarchies are well-formed so that the earlier default-name check
cannot raise. -/
theorem claim_C8 (d : Dimension) (hwf : d.WFHierarchies)
    (pre mid post : List Level) (li lj : Level) (a : Attribute) (r : String)
    (hsplit : d.levels = pre ++ li :: mid ++ lj :: post)
    (hpre : ∀ lk ∈ pre, ∀ c ∈ lk.attributes, c.refBase true ≠ r)
    (hb : ∃ b ∈ li.attributes, b.refBase true = r)
    (ha : a ∈ lj.attributes) (har : a.refBase true = r) :
    ∃ res, d.validate = .ok res ∧
      ("error", dupAttrMsg a.name d.name lj.name li.name) ∈ res := by
  have hne : d.levels.isEmpty = false := by
    rw [hsplit]
    cases pre <;> rfl
  have hp2 : ∃ p2, validateDefaultNamePart d = .ok p2 := by
    unfold validateDefaultNamePart
    by_cases hdn : pyTruthyStr d.default_hierarchy_name = true
    · rw [if_pos hdn]
      cases hlk : odLookup d.hierarchies (d.default_hierarchy_name.getD "")
        with
      | none => exact ⟨_, rfl⟩
      | some h =>
        obtain ⟨k0, hk0⟩ := odLookup_mem hlk
        refine ⟨[], ?_⟩
        show Except.map (fun _ => []) (hierLenCheck d h) = Except.ok []
        rw [hierLenCheck_ok hwf hk0]
        rfl
    · rw [if_neg hdn]
      exact ⟨[], rfl⟩
  obtain ⟨p2, hp2⟩ := hp2
  have hmem : ("error", dupAttrMsg a.name d.name lj.name li.name) ∈
      vLevels d d.levels ([], []) := by
    rw [hsplit]
    exact vLevels_dup hb ha har pre ([], []) (by simp) hpre
  unfold Dimension.validate
  rw [if_neg (by simp [hne]), hp2]
  exact ⟨_, rfl, List.mem_append_right _ hmem⟩

/-- Concrete objects for the claim C8 witness: a two-level dimension
whose levels each hold an attribute named `x`, giving the shared
reference `dd.x`. -/
def dimSumC8 : DimSummary :=
  { oid := 3, name := "dd", is_flat := false, has_details := false }

def attrC8 : Attribute := { name := "x", dimension := some dimSumC8 }

def lvlC8a : Level :=
  { name := "l1", attributes := [attrC8], key := some attrC8 }

def lvlC8b : Level :=
  { name := "l2", attributes := [attrC8], key := some attrC8 }

def dupDimC8 : Dimension :=
  { oid := 3, name := "dd", levels := [lvlC8a, lvlC8b],
    hierarchies := [("default", { name := "default",
                                  levelNames := ["l1", "l2"],
                                  dimension := some "dd" })] }

/-- Witness for claim C8: validating `dupDimC8` yields exactly the
duplicate-attribute error naming level `l2` and first-occurrence level
`l1`. -/
theorem claim_C8_witness :
    dupDimC8.validate = .ok [("error", dupAttrMsg "x" "dd" "l2" "l1")] ∧
    ("error", dupAttrMsg "x" "dd" "l2" "l1") ∈
      [("error", dupAttrMsg "x" "dd" "l2" "l1")] := by
  obtain ⟨res, hres, hmem⟩ := claim_C8 dupDimC8 (by decide) [] [] []
    lvlC8a lvlC8b attrC8 "dd.x" rfl (by simp)
    ⟨attrC8, by decide, by decide⟩ (by decide) (by decide)
  have hval : dupDimC8.validate =
      .ok [("error", dupAttrMsg "x" "dd" "l2" "l1")] := by decide
  rw [hval] at hres
  injection hres with he
  refine ⟨hval, ?_⟩
  rw [he]
  exact hmem

/-- Concrete objects for claim C6: a model with one flat dimension `d`
whose hierarchy `h` is labelled `old`, and a translation — keyed exactly
as the documentation prescribes, `dimensions -> d -> hierarchies -> h` —
that renames that hierarchy label. -/
def dimSumC6 : DimSummary :=
  { oid := 5, name := "d", is_flat := true, has_details := false }

def attrC6 : Attribute := { name := "a", dimension := some dimSumC6 }

def lvlC6 : Level :=
  { name := "l", attributes := [attrC6], key := some attrC6,
    label_attribute := some attrC6, order_attribute := some attrC6 }

def dimC6 : Dimension :=
  { oid := 5, name := "d", levels := [lvlC6],
    hierarchies := [("h", { name := "h", levelNames := ["l"],
                            dimension := some "d", label := some "old" })] }

def modelC6 : Model := { dimensions := [dimC6] }

def transC6 : ModelTrans :=
  { locale := some "sk",
    dimensions := some
      [("d", { hierarchies := some [("h", .str "NewLabel")] })] }

/-- The model `Model.localize` actually returns for `modelC6`/`transC6`:
the deep copy (whose level attributes lose their dimension
back-references, an artifact of `Level.__deepcopy__` calling
`Level.__init__` with `dimension=None`) with the locale set — and the
hierarchy label untouched. -/
def attrC6c : Attribute := { name := "a" }

def lvlC6c : Level :=
  { name := "l", attributes := [attrC6c], key := some attrC6c,
    label_attribute := some attrC6c, order_attribute := some attrC6c }

def dimC6c : Dimension :=
  { oid := 5, name := "d", levels := [lvlC6c],
    hierarchies := [("h", { name := "h", levelNames := ["l"],
                            dimension := some "d", label := some "old" })] }

def modelC6loc : Model := { locale := some "sk", dimensions := [dimC6c] }

/-- Claim C6 fails on the code (code bug): `Model.localize` with a
translation containing a hierarchy-label override under the documented
key `"hierarchies"` returns a model whose hierarchy label is *unchanged*
(`old`, not `NewLabel`): `Dimension.localize` only consults the misspelled
key `"hierarcies"`, and even that path is broken — when present and
non-empty it iterates the hierarchy *dict*, yielding key strings, and
raises `AttributeError` on `.name`.  The receiver itself is deep-copied
before any mutation, so the original-model-unchanged part of the claim
holds; the labels-overwritten part does not, for hierarchies. -/
theorem claim_C6 :
    modelC6.localize (.trans transC6) = .ok modelC6loc ∧
    (odLookup dimC6c.hierarchies "h").map Hierarchy.label =
      some (some "old") := by
  refine ⟨by decide, by decide⟩

end Cubes
